import Mathlib

/-!
Verification of `src/migrate_miscellaneous_grouped.py`.

Shallow-embedding conventions:
* Python strings are `List Char` (`PyStr`).
* Entry names come from `os.walk` and therefore contain no path separator, so
  `os.path.join a b = a ++ "/" ++ b` for the absolute, already normalised
  paths the script builds, and `os.path.abspath` is the identity on them.
* The filesystem is a finite list of existing paths plus an association list
  of file contents; the snapshot handed to `os.walk` is an explicit input.
* An uncaught Python exception is `Except.error`; exceptions the script
  catches are turned into logged actions, exactly where the `try` blocks sit.
-/

namespace Jellyfin

abbrev PyStr := List Char

/-- `os.path.join a b` for one separator-free component `b`. -/
def pjoin (a b : PyStr) : PyStr := a ++ ('/' :: b)

/-- `str.rfind('.')`: index of the last `'.'`, if any. -/
def rfindDot (l : PyStr) : Option Nat :=
  match l.reverse.findIdx? (fun c => c = '.') with
  | none => none
  | some j => some (l.length - 1 - j)

/-- `os.path.splitext(item)[0]` for separator-free names: the extension starts
at the last dot, unless every character before that dot is itself a dot
(CPython's leading-dot rule), in which case nothing is stripped. -/
def splitextRoot (l : PyStr) : PyStr :=
  match rfindDot l with
  | none => l
  | some i => if (l.take i).any (fun c => c ≠ '.') then l.take i else l

/-- Lines 82-91: base-key derivation.  `splitext` first, then the
`.trickplay` override (the code checks `item.endswith(".trickplay")` with no
directory test), then the `-poster` strip. -/
def deriveBaseKey (item : PyStr) : PyStr :=
  let name_no_ext := splitextRoot item
  let name_no_ext :=
    if (".trickplay".data).isSuffixOf item then item.take (item.length - 10)
    else name_no_ext
  if ("-poster".data).isSuffixOf name_no_ext then name_no_ext.take (name_no_ext.length - 7)
  else name_no_ext

/-- `defaultdict(list)` insertion: append to the entry of key `k`, keeping
first-appearance key order, or add a fresh entry at the end. -/
def addToGroups : List (PyStr × List PyStr) → PyStr → PyStr → List (PyStr × List PyStr)
  | [], k, it => [(k, [it])]
  | (k', its) :: rest, k, it =>
    if k' = k then (k', its ++ [it]) :: rest
    else (k', its) :: addToGroups rest k it

/-- Lines 74-93: group the entries of one directory by derived base key,
keeping only entries that start with `original_group`.  (The
`basename(root) == target_subdir` guard is handled by the caller.) -/
def buildGroups (g : PyStr) (items : List PyStr) : List (PyStr × List PyStr) :=
  items.foldl
    (fun acc it => if g.isPrefixOf it then addToGroups acc (deriveBaseKey it) it else acc) []

/-- Python `\d` restricted to ASCII decimal digits. -/
def isDig (c : Char) : Bool := decide ('0' ≤ c ∧ c ≤ '9')

/-- Lines 102-103: `re.match(f"{re.escape(g)} - S(\d{{4}})E\d+ - (.*)", base)`
with no flags (case-sensitive, anchored at the start only).  On success the
result is `(capture 1, capture 2)`; `(.*)` runs to the end of the string or to
the first newline.  All the pieces of the pattern are deterministic, so a
single left-to-right pass embeds the regex faithfully. -/
def parseBase (g base : PyStr) : Option (PyStr × PyStr) :=
  if g.isPrefixOf base then
    let r1 := base.drop g.length
    if (" - S".data).isPrefixOf r1 then
      let r2 := r1.drop 4
      let year := r2.take 4
      if year.length = 4 && year.all isDig then
        match r2.drop 4 with
        | 'E' :: r4 =>
          let ds := r4.takeWhile isDig
          if ds.isEmpty then none
          else
            let r5 := r4.drop ds.length
            if (" - ".data).isPrefixOf r5 then
              some (year, (r5.drop 3).takeWhile (fun c => c ≠ '\n'))
            else none
        | _ => none
      else none
    else none
  else none

/-- `str.strip()`. -/
def pystrip (s : PyStr) : PyStr :=
  ((s.dropWhile Char.isWhitespace).reverse.dropWhile Char.isWhitespace).reverse

/-- decimal digits of `n`, most significant first; `fuel` bounds the
recursion depth (any `fuel` above the digit count is enough). -/
def natStrAux : Nat → Nat → PyStr
  | 0, _ => []
  | fuel + 1, n =>
    if n < 10 then [Char.ofNat (48 + n)]
    else natStrAux fuel (n / 10) ++ [Char.ofNat (48 + n % 10)]

/-- `str(n)` for a natural number. -/
def natStr (n : Nat) : PyStr := natStrAux (n + 1) n

/-- Lines 128-163: the candidate name tried with collision counter `k`
(`k = 1` is the plain `new_base_name`, `k ≥ 2` appends `" (k)"`). -/
def candName (newBase : PyStr) (k : Nat) : PyStr :=
  if k ≤ 1 then newBase else newBase ++ (" (".data ++ natStr k ++ ")".data)

/-! ### `update_nfo` (lines 18-53): the two `re.sub` passes

`re.sub` scans left to right, replaces each leftmost match and resumes after
it.  We embed this with a generic scanner producing a segment list: every
character is either copied verbatim (`Seg.raw`) or belongs to a matched span
that is replaced (`Seg.rep matched replacement`). -/

/-- case-insensitive equality of two strings (`re.IGNORECASE` on ASCII tags). -/
def ciEq (a b : PyStr) : Bool := a.map Char.toLower == b.map Char.toLower

/-- does `l` start with `p`, case-insensitively? -/
def startsWithCI (p l : PyStr) : Bool := ciEq (l.take p.length) p

/-- The non-greedy `.*?` followed by the literal `close` (case-insensitive):
smallest offset `j` such that `close` matches at `j`, all skipped characters
being non-newline (`.` does not match a newline). -/
def findClose (close : PyStr) : PyStr → Option Nat
  | [] => if startsWithCI close [] then some 0 else none
  | c :: rest =>
    if startsWithCI close (c :: rest) then some 0
    else if c = '\n' then none
    else (findClose close rest).map (· + 1)

/-- One segment of a substitution: a verbatim character, or a matched span
together with its replacement. -/
inductive Seg where
  | raw : Char → Seg
  | rep : PyStr → PyStr → Seg
deriving DecidableEq

def Seg.isRaw : Seg → Bool
  | .raw _ => true
  | .rep _ _ => false

/-- the original text of a segment list. -/
def renderOrig (segs : List Seg) : PyStr :=
  segs.foldr (fun s acc => match s with | .raw c => c :: acc | .rep o _ => o ++ acc) []

/-- the substituted text of a segment list. -/
def renderNew (segs : List Seg) : PyStr :=
  segs.foldr (fun s acc => match s with | .raw c => c :: acc | .rep _ r => r ++ acc) []

/-- Generic `re.sub` scanner: `m l` returns the length of the (nonempty)
match at the head of `l` and its replacement, or `none`.  `fuel` bounds the
recursion depth (the input's length is always enough). -/
def scanAux (m : PyStr → Option (Nat × PyStr)) : Nat → PyStr → List Seg
  | 0, _ => []
  | _, [] => []
  | fuel + 1, c :: rest =>
    match m (c :: rest) with
    | some (n, r) =>
      if n = 0 then Seg.raw c :: scanAux m fuel rest
      else Seg.rep ((c :: rest).take n) r :: scanAux m fuel ((c :: rest).drop n)
    | none => Seg.raw c :: scanAux m fuel rest

def scan (m : PyStr → Option (Nat × PyStr)) (l : PyStr) : List Seg :=
  scanAux m l.length l

/-! #### `re.sub` replacement templates

The code passes `f"\\1{new_title}\\3"` (line 34) and
`f"<year>{new_year}</year>"` (line 43) to `re.sub` as STRING replacements,
so Python parses them as templates: backslash escapes inside the spliced
arguments are interpreted (group references, octal and control escapes), a
bad escape or an out-of-range group reference raises `re.error` — before any
match is attempted — and the blanket `except` of `update_nfo` then swallows
the whole substitution call.  We embed CPython's `sre_parse.parse_template`. -/

/-- one parsed element of a replacement template. -/
inductive TItem where
  | lit : Char → TItem
  | group : Nat → TItem
deriving DecidableEq

def natOfDigits (s : PyStr) : Nat := s.foldl (fun acc c => 10 * acc + (c.toNat - 48)) 0

def isOct (c : Char) : Bool := decide ('0' ≤ c ∧ c ≤ '7')

def octVal (c : Char) : Nat := c.toNat - 48

def isAsciiLetterCh (c : Char) : Bool :=
  decide (('a' ≤ c ∧ c ≤ 'z') ∨ ('A' ≤ c ∧ c ≤ 'Z'))

/-- the template escapes CPython accepts (`sre_parse.ESCAPES`):
`\a \b \f \n \r \t \v \\`. -/
def templEscape (c : Char) : Option Char :=
  if c = 'a' then some (Char.ofNat 7)
  else if c = 'b' then some (Char.ofNat 8)
  else if c = 'f' then some (Char.ofNat 12)
  else if c = 'n' then some (Char.ofNat 10)
  else if c = 'r' then some (Char.ofNat 13)
  else if c = 't' then some (Char.ofNat 9)
  else if c = 'v' then some (Char.ofNat 11)
  else if c = '\\' then some '\\'
  else none

/-- CPython `sre_parse.parse_template` for a pattern with `numGroups` capture
groups: `\g<n>` and `\n` (one or two digits, `\0oo` and all-octal `\ddd`
being octal character escapes, the latter erroring above `0o377`) are group
references — invalid above `numGroups` —, `\` + ASCII letter outside the
escape table is a bad escape, any other escaped character is kept with its
backslash, and a template error (`none`) makes `re.sub` raise even when the
pattern never matches.  `fuel` bounds the recursion depth (each step consumes
at least one character, so `length + 1` is always enough). -/
def parseTemplateAux (numGroups : Nat) : Nat → PyStr → Option (List TItem)
  | 0, _ => none
  | _, [] => some []
  | fuel + 1, c :: rest =>
    if c = '\\' then
      match rest with
      | [] => none
      | e :: rest2 =>
        if e = 'g' then
          match rest2 with
          | lt :: rest3 =>
            if lt = '<' then
              let name := rest3.takeWhile (fun x => x ≠ '>')
              match rest3.drop name.length with
              | gt :: rest4 =>
                if gt = '>' then
                  if name.isEmpty then none
                  else
                    let ds := match name with | '+' :: ds => ds | ds => ds
                    if ds.isEmpty = false && ds.all isDig then
                      let i := natOfDigits ds
                      if i ≤ numGroups then
                        (parseTemplateAux numGroups fuel rest4).map
                          (fun items => TItem.group i :: items)
                      else none
                    else none
                else none
              | [] => none
            else none
          | [] => none
        else if e = '0' then
          match rest2 with
          | d1 :: rest3 =>
            if isOct d1 then
              match rest3 with
              | d2 :: rest4 =>
                if isOct d2 then
                  (parseTemplateAux numGroups fuel rest4).map
                    (fun items => TItem.lit (Char.ofNat (octVal d1 * 8 + octVal d2)) :: items)
                else
                  (parseTemplateAux numGroups fuel rest3).map
                    (fun items => TItem.lit (Char.ofNat (octVal d1)) :: items)
              | [] =>
                (parseTemplateAux numGroups fuel rest3).map
                  (fun items => TItem.lit (Char.ofNat (octVal d1)) :: items)
            else
              (parseTemplateAux numGroups fuel rest2).map
                (fun items => TItem.lit (Char.ofNat 0) :: items)
          | [] =>
            (parseTemplateAux numGroups fuel rest2).map
              (fun items => TItem.lit (Char.ofNat 0) :: items)
        else if isDig e then
          match rest2 with
          | d2 :: rest3 =>
            if isDig d2 then
              match rest3 with
              | d3 :: rest4 =>
                if isOct e && isOct d2 && isOct d3 then
                  let v := octVal e * 64 + octVal d2 * 8 + octVal d3
                  if 255 < v then none
                  else
                    (parseTemplateAux numGroups fuel rest4).map
                      (fun items => TItem.lit (Char.ofNat v) :: items)
                else
                  let i := (e.toNat - 48) * 10 + (d2.toNat - 48)
                  if i ≤ numGroups then
                    (parseTemplateAux numGroups fuel rest3).map
                      (fun items => TItem.group i :: items)
                  else none
              | [] =>
                let i := (e.toNat - 48) * 10 + (d2.toNat - 48)
                if i ≤ numGroups then
                  (parseTemplateAux numGroups fuel rest3).map
                    (fun items => TItem.group i :: items)
                else none
            else
              let i := e.toNat - 48
              if i ≤ numGroups then
                (parseTemplateAux numGroups fuel rest2).map
                  (fun items => TItem.group i :: items)
              else none
          | [] =>
            let i := e.toNat - 48
            if i ≤ numGroups then
              (parseTemplateAux numGroups fuel rest2).map
                (fun items => TItem.group i :: items)
            else none
        else
          match templEscape e with
          | some ch =>
            (parseTemplateAux numGroups fuel rest2).map
              (fun items => TItem.lit ch :: items)
          | none =>
            if isAsciiLetterCh e then none
            else
              (parseTemplateAux numGroups fuel rest2).map
                (fun items => TItem.lit '\\' :: TItem.lit e :: items)
    else (parseTemplateAux numGroups fuel rest).map (fun items => TItem.lit c :: items)

def parseTemplate (numGroups : Nat) (s : PyStr) : Option (List TItem) :=
  parseTemplateAux numGroups (s.length + 1) s

/-- expand a parsed template at one match; `groups` lists the matched texts
with the WHOLE match first (`groups[i]` is group `i`). -/
def expandItems (groups : List PyStr) (items : List TItem) : PyStr :=
  items.foldr
    (fun it acc => match it with
      | .lit c => c :: acc
      | .group i => groups.getD i [] ++ acc) []

/-- line 34: `replacement = f"\\1{new_title}\\3"` — plain string splicing, so
a backslash (or a leading digit, which extends the `\1` reference) in
`new_title` takes part in the template syntax. -/
def titleTemplate (new_title : PyStr) : PyStr := "\\1".data ++ new_title ++ "\\3".data

/-- line 43: `replacement = f"<year>{new_year}</year>"`. -/
def yearTemplate (new_year : PyStr) : PyStr := "<year>".data ++ new_year ++ "</year>".data

/-- Matcher for `(<title>)(.*?)(</title>)` with a PARSED replacement
template: the template items are expanded at each match against the groups
`[whole, open-tag, inner, close-tag]`. -/
def titleMatcher (items : List TItem) (l : PyStr) : Option (Nat × PyStr) :=
  if startsWithCI ("<title>".data) l then
    (findClose ("</title>".data) (l.drop 7)).map (fun j =>
      (7 + j + 8,
        expandItems [l.take (7 + j + 8), l.take 7, (l.drop 7).take j, (l.drop (7 + j)).take 8]
          items))
  else none

/-- `(?:>.*?</year>|(?:\s*/>))`, the tail of the year pattern: returns the
number of characters it consumes.  `\s*` is greedy, and since `'/'` is not
whitespace the whole leading whitespace run is the only viable split. -/
def yearCont (r : PyStr) : Option Nat :=
  match r with
  | '>' :: r2 =>
    match findClose ("</year>".data) r2 with
    | some j => some (1 + j + 7)
    | none => none
  | _ =>
    let w := (r.takeWhile (fun c => c.isWhitespace)).length
    if ("/>".data).isPrefixOf (r.drop w) then some (w + 2) else none

/-- The greedy optional attribute group `(?:\s+[^>]*)?`: try consuming
`a, a-1, …, 1` characters (each a valid `\s+[^>]*` span by the caller's
choice of `a`), finally `0` (group absent), and continue with `yearCont`. -/
def yearTryAttrs (rem : PyStr) : Nat → Option Nat
  | 0 => yearCont rem
  | a + 1 =>
    match yearCont (rem.drop (a + 1)) with
    | some clen => some ((a + 1) + clen)
    | none => yearTryAttrs rem a

/-- Matcher for `<year(?:\s+[^>]*)?(?:>.*?</year>|(?:\s*/>))` (line 42) with
a parsed replacement template (the pattern has zero capture groups, so the
expansion groups are `[whole]` only). -/
def yearMatcher (items : List TItem) (l : PyStr) : Option (Nat × PyStr) :=
  if startsWithCI ("<year".data) l then
    let rem := l.drop 5
    let maxA :=
      match rem with
      | c :: _ => if c.isWhitespace then (rem.takeWhile (fun c => c ≠ '>')).length else 0
      | [] => 0
    (yearTryAttrs rem maxA).map (fun m => (5 + m, expandItems [l.take (5 + m)] items))
  else none

/-- Line 36's `re.sub` after the template has parsed successfully. -/
def subTitle (items : List TItem) (c : PyStr) : PyStr := renderNew (scan (titleMatcher items) c)

/-- Line 45's `re.sub` after the template has parsed successfully. -/
def subYear (items : List TItem) (c : PyStr) : PyStr := renderNew (scan (yearMatcher items) c)

/-- Lines 25-49 on the file's text: final content and number of writes.
Each `re.sub` first parses its template (raising on a bad one even when the
pattern never matches; the `except` then ends the call), and both write
conditions compare against the ORIGINAL content `c`. -/
def updateNfoResult (t y c : PyStr) : PyStr × Nat :=
  match parseTemplate 3 (titleTemplate t) with
  | none => (c, 0)
  | some itT =>
    let mid := subTitle itT c
    let w1 : Nat := if mid ≠ c then 1 else 0
    match parseTemplate 0 (yearTemplate y) with
    | none => ((if mid ≠ c then mid else c), w1)
    | some itY =>
      let fin := subYear itY mid
      let w2 : Nat := if fin ≠ c then 1 else 0
      ((if fin ≠ c then fin else if mid ≠ c then mid else c), w1 + w2)

/-! ### The filesystem model and `migrate_media` (lines 55-192) -/

/-- Line 9: the hardcoded library root. -/
def ROOT_DIR : PyStr := "/Volumes/media/home_videos/home".data

/-- Filesystem state: the set of existing paths, and file contents as an
association list (directories and content-free files have no entry). -/
structure FS where
  paths : List PyStr
  content : List (PyStr × PyStr)

/-- Environment faults: which `os.makedirs` and `shutil.move` calls raise. -/
structure Env where
  mkdirFails : PyStr → Bool
  moveFails : PyStr → Bool

def FS.read (fs : FS) (p : PyStr) : Option PyStr :=
  (fs.content.find? (fun e => e.1 = p)).map (fun e => e.2)

def FS.write (fs : FS) (p c : PyStr) : FS :=
  { fs with content := (p, c) :: fs.content.filter (fun e => ¬ e.1 = p) }

/-- `shutil.move src dst`: the path is renamed, its content carried along. -/
def FS.move (fs : FS) (src dst : PyStr) : FS :=
  { paths := dst :: fs.paths.erase src,
    content := fs.content.map (fun e => if e.1 = src then (dst, e.2) else e) }

/-- The observable log of the run (`print` lines and side effects). -/
inductive Action where
  | skipped (base : PyStr)
  | mkdir (dir : PyStr)
  | moved (src dst : PyStr)
  | wouldMove (src dst : PyStr)
  | moveFailed (item : PyStr)
  | nfoCall (path title year : PyStr) (dryRun : Bool)
  | readFile (path : PyStr)
  | wroteFile (path : PyStr)
  | nfoError (path : PyStr)
deriving DecidableEq

/-- Lines 18-53: `update_nfo` on the filesystem.  In dry-run mode it only
logs (the caller records the `nfoCall`); otherwise it reads the file, runs
the two substitutions with up to two conditional writes; any error — an
unreadable file, or an `re.error` from a bad replacement template (raised by
`re.sub` itself, so a bad TITLE template aborts before any write and a bad
YEAR template aborts after the title write) — is caught and logged. -/
def update_nfo (fs : FS) (path title year : PyStr) (dryRun : Bool) : FS × List Action :=
  if dryRun then (fs, [])
  else
    match fs.read path with
    | none => (fs, [.readFile path, .nfoError path])
    | some c =>
      match parseTemplate 3 (titleTemplate title) with
      | none => (fs, [.readFile path, .nfoError path])
      | some itT =>
        let mid := subTitle itT c
        let s1 : FS × List Action :=
          if mid ≠ c then (fs.write path mid, [.readFile path, .wroteFile path])
          else (fs, [.readFile path])
        match parseTemplate 0 (yearTemplate year) with
        | none => (s1.1, s1.2 ++ [.nfoError path])
        | some itY =>
          let fin := subYear itY mid
          if fin ≠ c then (s1.1.write path fin, s1.2 ++ [.wroteFile path]) else s1

/-- Lines 131-163: does candidate name `cand` collide for some member?  A
member that does not start with `base_key` is skipped (`continue`); a path
equal to the member's own source path is ignored (self-move). -/
def collides (fs : FS) (root dest_dir base_key : PyStr) (items : List PyStr)
    (cand : PyStr) : Bool :=
  items.any (fun item =>
    base_key.isPrefixOf item &&
    (let suffix := item.drop base_key.length
     let proposed := pjoin dest_dir (cand ++ suffix)
     decide (proposed ∈ fs.paths) && !(decide (proposed = pjoin root item))))

/-- The `while True` collision loop, with explicit fuel (`none` = the loop
would not have terminated within `fuel` iterations). -/
def resolveLoop (fs : FS) (root dest_dir base_key : PyStr) (items : List PyStr)
    (newBase : PyStr) : Nat → Nat → Option Nat
  | 0, _ => none
  | fuel + 1, k =>
    if collides fs root dest_dir base_key items (candName newBase k) then
      resolveLoop fs root dest_dir base_key items newBase fuel (k + 1)
    else some k

/-- length of the longest existing path. -/
def maxLen (l : List PyStr) : Nat := l.foldr (fun s m => max s.length m) 0

/-- Fuel that provably suffices for the collision loop (see
`resolveLoop_terminates`). -/
def fuelBound (fs : FS) : Nat := 10 ^ maxLen fs.paths + 1

/-- The collision counter the loop settles on (the loop is proven to
terminate within `fuelBound`, so the default is never used). -/
def resolveCounter (fs : FS) (root dest_dir base_key : PyStr) (items : List PyStr)
    (newBase : PyStr) : Nat :=
  (resolveLoop fs root dest_dir base_key items newBase (fuelBound fs) 1).getD 1

/-- Lines 167-192: the move loop over the members of one group.  Each member
is moved to `dest_dir / (final ++ suffix)`; a move failure is caught and
logged; after a successful move of a `.nfo` target the patcher runs with
`(item.final_name, item.year)`. -/
def moveStep (dry : Bool) (env : Env) (root dest_dir base_key final year : PyStr)
    (s : FS × List Action) (item : PyStr) : FS × List Action :=
  let suffix := item.drop base_key.length
  let target_name := final ++ suffix
  let target := pjoin dest_dir target_name
  let src := pjoin root item
  if dry then
    if (".nfo".data).isSuffixOf target_name then
      (s.1, s.2 ++ [.wouldMove src target, .nfoCall target final year true])
    else (s.1, s.2 ++ [.wouldMove src target])
  else if env.moveFails src then (s.1, s.2 ++ [.moveFailed item])
  else
    let fs' := s.1.move src target
    if (".nfo".data).isSuffixOf target_name then
      let r := update_nfo fs' target final year false
      (r.1, s.2 ++ [.moved src target, .nfoCall target final year false] ++ r.2)
    else (fs', s.2 ++ [.moved src target])

def processMoves (dry : Bool) (env : Env) (root dest_dir base_key final year : PyStr)
    (fs : FS) (items : List PyStr) : FS × List Action :=
  items.foldl (moveStep dry env root dest_dir base_key final year) (fs, [])

/-- Lines 96-192: processing of one `(base_key, items)` group.  An
`os.makedirs` failure is NOT caught anywhere: it escapes as `.error`. -/
def processGroup (target_subdir original_group : PyStr) (dry : Bool) (env : Env)
    (root : PyStr) (fs : FS) (base_key : PyStr) (items : List PyStr) :
    Except PyStr (FS × List Action) :=
  match parseBase original_group base_key with
  | none => .ok (fs, [.skipped base_key])
  | some (year, cap2) =>
    let raw_title := pystrip cap2
    let new_base_name := raw_title ++ (" (".data) ++ year ++ (")".data)
    let dest_dir := pjoin (pjoin (pjoin ROOT_DIR year) target_subdir) new_base_name
    let step1 : Except PyStr (FS × List Action) :=
      if dest_dir ∈ fs.paths then .ok (fs, [])
      else if dry then .ok (fs, [])
      else if env.mkdirFails dest_dir then .error ("makedirs: ".data ++ dest_dir)
      else .ok ({ fs with paths := dest_dir :: fs.paths }, [.mkdir dest_dir])
    match step1 with
    | .error e => .error e
    | .ok (fs1, acts1) =>
      let k := resolveCounter fs1 root dest_dir base_key items new_base_name
      let final := candName new_base_name k
      let r := processMoves dry env root dest_dir base_key final year fs1 items
      .ok (r.1, acts1 ++ r.2)

/-- One directory visited by `os.walk` (lines 61-96): its path, its basename,
and the `files`/`dirs` listings. -/
structure DirEntry where
  root : PyStr
  base : PyStr
  files : List PyStr
  dirs : List PyStr

/-- Lines 61-192: one directory of the walk.  Entries are grouped (unless the
directory is the tool's own output, line 79) and the groups are processed in
order; an uncaught exception aborts the fold. -/
def processDir (target_subdir original_group : PyStr) (dry : Bool) (env : Env)
    (fs : FS) (d : DirEntry) : Except PyStr (FS × List Action) :=
  let all_items := d.files ++ d.dirs
  let groups :=
    if d.base = target_subdir then [] else buildGroups original_group all_items
  groups.foldlM
    (fun s g =>
      (processGroup target_subdir original_group dry env d.root s.1 g.1 g.2).map
        (fun r => (r.1, s.2 ++ r.2)))
    (fs, [])

/-- Lines 55-192: the whole run over a walk snapshot. -/
def migrate_media (target_subdir original_group : PyStr) (dry : Bool) (env : Env)
    (fs : FS) (walk : List DirEntry) : Except PyStr (FS × List Action) :=
  walk.foldlM
    (fun s d =>
      (processDir target_subdir original_group dry env s.1 d).map
        (fun r => (r.1, s.2 ++ r.2)))
    (fs, [])

/-- the action log of a successful run (`[]` when the run aborted). -/
def actionsOf (r : Except PyStr (FS × List Action)) : List Action :=
  match r with
  | .ok s => s.2
  | .error _ => []

def isError (r : Except PyStr (FS × List Action)) : Bool :=
  match r with
  | .ok _ => false
  | .error _ => true

/-! ### Definitions written from the SPEC's words, for comparison -/

/-- Modelled from the spec (claim C9's words): "(a) strip the trailing
directory-cache suffix … if the entry is a directory bearing it …;
(b) otherwise strip the file extension (text after the last `.`);
(c) strip a trailing 7-character poster marker if present."
The extension strip is read literally: cut at the last dot. -/
def baseKeySpecC9 (name : PyStr) (isDirectory : Bool) : PyStr :=
  let stem :=
    if isDirectory && (".trickplay".data).isSuffixOf name then name.take (name.length - 10)
    else
      match rfindDot name with
      | none => name
      | some i => name.take i
  if ("-poster".data).isSuffixOf stem then stem.take (stem.length - 7) else stem

/-- The amended C9 derivation: the cache-marker strip applies to ANY entry
whose name ends with `.trickplay` (directory or not), and extension stripping
follows `os.path.splitext` (a name whose characters before its last dot are
all dots keeps its name); then the poster strip. -/
def baseKeySpecC9Amended (name : PyStr) : PyStr :=
  let stem :=
    if (".trickplay".data).isSuffixOf name then name.take (name.length - 10)
    else
      match rfindDot name with
      | none => name
      | some i => if (name.take i).all (fun c => c = '.') then name else name.take i
  if ("-poster".data).isSuffixOf stem then stem.take (stem.length - 7) else stem

/-! ### Shape predicates used in the claim statements -/

/-- the fixed destination directory of a parsed group (line 116):
`ROOT_DIR/<year>/<target_subdir>/<title> (<year>)` — no collision counter. -/
def destDirOf (target_subdir year cap2 : PyStr) : PyStr :=
  pjoin (pjoin (pjoin ROOT_DIR year) target_subdir)
    (pystrip cap2 ++ (" (".data) ++ year ++ (")".data))

/-- What each action produced by the move loop of one group must look like:
move sources/targets are built from a member's suffix, metadata-patcher
calls carry `(final, year)`, and no `skipped`/`mkdir` action arises there. -/
def MoveActWF (dry : Bool) (root dest_dir base_key final year : PyStr)
    (items : List PyStr) (a : Action) : Prop :=
  match a with
  | .moved s t => ∃ item ∈ items,
      s = pjoin root item ∧ t = pjoin dest_dir (final ++ item.drop base_key.length)
  | .wouldMove s t => dry = true ∧ ∃ item ∈ items,
      s = pjoin root item ∧ t = pjoin dest_dir (final ++ item.drop base_key.length)
  | .nfoCall p ttl yr dr => ttl = final ∧ yr = year ∧ dr = dry ∧
      ∃ item ∈ items, p = pjoin dest_dir (final ++ item.drop base_key.length)
  | .moveFailed i => i ∈ items
  | .readFile _ => True
  | .wroteFile _ => True
  | .nfoError _ => True
  | .skipped _ => False
  | .mkdir _ => False

/-- Actions a dry run may produce: pure log entries, never a mutation and
never a metadata-file read or write. -/
def DryActWF (a : Action) : Prop :=
  match a with
  | .skipped _ => True
  | .wouldMove _ _ => True
  | .nfoCall _ _ _ dr => dr = true
  | .mkdir _ => False
  | .moved _ _ => False
  | .moveFailed _ => False
  | .readFile _ => False
  | .wroteFile _ => False
  | .nfoError _ => False

/-- Well-formed segment of the title substitution: raw characters are copied;
a replaced span is an open tag, a newline-free inner text and a close tag
(matched case-insensitively and kept verbatim), the inner text alone being
replaced by `t`. -/
def SegWFTitle (t : PyStr) (s : Seg) : Prop :=
  match s with
  | .raw _ => True
  | .rep o r => ∃ opn inner cls,
      o = opn ++ inner ++ cls ∧
      ciEq opn ("<title>".data) = true ∧
      ciEq cls ("</title>".data) = true ∧
      inner.all (fun c => c ≠ '\n') = true ∧
      r = opn ++ t ++ cls

/-- Well-formed segment of the year substitution: a replaced span starts with
`<year` (case-insensitively) and ends either with a `</year>` close tag or
with the self-closing `/>`; the replacement is exactly `<year>y</year>`. -/
def SegWFYear (y : PyStr) (s : Seg) : Prop :=
  match s with
  | .raw _ => True
  | .rep o r => r = "<year>".data ++ y ++ "</year>".data ∧
      ciEq (o.take 5) ("<year".data) = true ∧
      (ciEq (o.drop (o.length - 7)) ("</year>".data) = true ∨
        o.drop (o.length - 2) = "/>".data)

/-! ### Concrete inputs used by witnesses and counterexamples -/

/-- an environment in which no `os.makedirs` or `shutil.move` call raises. -/
def envOk : Env := ⟨fun _ => false, fun _ => false⟩

def exSrcDir : PyStr := "/Volumes/media/home_videos/home/misc".data

def exMp4 : PyStr := "Home - S2021E01 - Clip.mp4".data

def exNfo : PyStr := "Home - S2021E01 - Clip.nfo".data

def exKey : PyStr := "Home - S2021E01 - Clip".data

/-- destination directory of the example group ("Clip (2021)", no counter). -/
def exDest : PyStr :=
  "/Volumes/media/home_videos/home/2021/Videos/Clip (2021)".data

/-- filesystem with the example group's files plus a pre-existing conflicting
`Clip (2021).mp4` at the destination, forcing collision counter 2. -/
def exFSConflict : FS :=
  ⟨[pjoin exSrcDir exMp4, pjoin exSrcDir exNfo, pjoin exDest ("Clip (2021).mp4".data)],
   [(pjoin exSrcDir exNfo, "<title>old</title><year/>".data)]⟩

/-- filesystem with just the example group's files. -/
def exFSPlain : FS :=
  ⟨[pjoin exSrcDir exMp4, pjoin exSrcDir exNfo],
   [(pjoin exSrcDir exNfo, "<title>old</title><year/>".data)]⟩

def exWalk : List DirEntry := [⟨exSrcDir, "misc".data, [exMp4, exNfo], []⟩]

/-- two one-file groups in one directory (for the makedirs-abort counterexample). -/
def exA : PyStr := "Home - S2021E01 - A.mp4".data

def exB : PyStr := "Home - S2021E02 - B.mp4".data

def exFSTwo : FS := ⟨[pjoin exSrcDir exA, pjoin exSrcDir exB], []⟩

def exWalkTwo : List DirEntry := [⟨exSrcDir, "misc".data, [exA, exB], []⟩]

/-- destination directory of group A. -/
def exDestA : PyStr := "/Volumes/media/home_videos/home/2021/Videos/A (2021)".data

/-- environment in which creating group A's destination directory raises. -/
def envMkdirFailsA : Env := ⟨fun p => p = exDestA, fun _ => false⟩

/-! ### Basic helper lemmas -/

theorem isPrefixOf_ex (p : PyStr) : ∀ l : PyStr, p.isPrefixOf l = true ↔ ∃ t, p ++ t = l := by
  induction p with
  | nil => intro l; simp [List.isPrefixOf]
  | cons a as ih =>
    intro l
    cases l with
    | nil => simp [List.isPrefixOf]
    | cons b bs =>
      simp only [List.isPrefixOf, Bool.and_eq_true, beq_iff_eq, ih bs]
      constructor
      · rintro ⟨rfl, t, rfl⟩; exact ⟨t, rfl⟩
      · rintro ⟨t, h⟩
        injection h with h1 h2
        exact ⟨h1, t, h2⟩

theorem isPrefixOf_append_self (p t : PyStr) : p.isPrefixOf (p ++ t) = true :=
  (isPrefixOf_ex p (p ++ t)).mpr ⟨t, rfl⟩

theorem take_append_drop_len (l : PyStr) (n : Nat) :
    l.take n ++ l.drop ((l.take n).length) = l := by
  rcases Nat.le_total n l.length with h | h
  · rw [List.length_take, Nat.min_eq_left h, List.take_append_drop]
  · rw [List.take_of_length_le h]
    simp

theorem splitextRoot_take (l : PyStr) : ∃ n, splitextRoot l = l.take n := by
  unfold splitextRoot
  split
  · exact ⟨l.length, (List.take_length l).symm⟩
  · rename_i i _hd
    split
    · exact ⟨i, rfl⟩
    · exact ⟨l.length, (List.take_length l).symm⟩

theorem deriveBaseKey_take (item : PyStr) : ∃ n, deriveBaseKey item = item.take n := by
  unfold deriveBaseKey
  obtain ⟨n₀, hn₀⟩ := splitextRoot_take item
  have hstem : ∃ n, (if (".trickplay".data).isSuffixOf item then
      item.take (item.length - 10) else splitextRoot item) = item.take n := by
    rcases Bool.eq_false_or_eq_true ((".trickplay".data).isSuffixOf item) with ht | ht
    · exact ⟨item.length - 10, by rw [ht]; simp⟩
    · exact ⟨n₀, by rw [ht]; simp [hn₀]⟩
  obtain ⟨n₁, hn₁⟩ := hstem
  simp only [hn₁]
  rcases Bool.eq_false_or_eq_true (("-poster".data).isSuffixOf (item.take n₁)) with hp | hp
  · refine ⟨min ((item.take n₁).length - 7) n₁, ?_⟩
    rw [hp]
    simp [List.take_take]
  · exact ⟨n₁, by rw [hp]; simp⟩

theorem deriveBaseKey_append_drop (item : PyStr) :
    deriveBaseKey item ++ item.drop ((deriveBaseKey item).length) = item := by
  obtain ⟨n, hn⟩ := deriveBaseKey_take item
  rw [hn]
  exact take_append_drop_len item n

/-- well-formedness of one group entry: every member starts with the filter
prefix and derives exactly the group's key. -/
def GroupWF (g : PyStr) (p : PyStr × List PyStr) : Prop :=
  ∀ m ∈ p.2, g.isPrefixOf m = true ∧ deriveBaseKey m = p.1

theorem addToGroups_wf (g : PyStr) (k it : PyStr)
    (hit : g.isPrefixOf it = true) (hk : deriveBaseKey it = k) :
    ∀ acc : List (PyStr × List PyStr), (∀ p ∈ acc, GroupWF g p) →
      ∀ p ∈ addToGroups acc k it, GroupWF g p := by
  intro acc
  induction acc with
  | nil =>
    intro _ p hp
    simp only [addToGroups, List.mem_singleton] at hp
    subst hp
    intro m hm
    simp only [List.mem_singleton] at hm
    subst hm
    exact ⟨hit, hk⟩
  | cons q rest ih =>
    intro hacc p hp
    obtain ⟨k', its⟩ := q
    simp only [addToGroups] at hp
    split at hp
    · rename_i hkk
      rcases List.mem_cons.mp hp with rfl | htl
      · intro m hm
        rcases List.mem_append.mp hm with hold | hnew
        · exact hacc (k', its) (List.mem_cons_self _ _) m hold
        · simp only [List.mem_singleton] at hnew
          subst hnew
          exact ⟨hit, by rw [hk, hkk]⟩
      · exact hacc p (List.mem_cons_of_mem _ htl)
    · rcases List.mem_cons.mp hp with rfl | htl
      · exact hacc _ (List.mem_cons_self _ _)
      · exact ih (fun r hr => hacc r (List.mem_cons_of_mem _ hr)) p htl

theorem buildGroups_wf (g : PyStr) (items : List PyStr) :
    ∀ p ∈ buildGroups g items, GroupWF g p := by
  have main : ∀ (l : List PyStr) (acc : List (PyStr × List PyStr)),
      (∀ p ∈ acc, GroupWF g p) →
      ∀ p ∈ l.foldl
        (fun acc it => if g.isPrefixOf it then addToGroups acc (deriveBaseKey it) it else acc)
        acc, GroupWF g p := by
    intro l
    induction l with
    | nil => intro acc hacc p hp; exact hacc p hp
    | cons it rest ih =>
      intro acc hacc p hp
      simp only [List.foldl_cons] at hp
      by_cases hg : g.isPrefixOf it = true
      · rw [if_pos hg] at hp
        exact ih (addToGroups acc (deriveBaseKey it) it)
          (addToGroups_wf g (deriveBaseKey it) it hg rfl acc hacc) p hp
      · rw [if_neg hg] at hp
        exact ih acc hacc p hp
  intro p hp
  exact main items [] (by simp) p hp

/-! ### Parsing -/

theorem parseBase_success (g year ds rest : PyStr)
    (hy : year.length = 4) (hyd : year.all isDig = true)
    (hd : ds ≠ []) (hdd : ds.all isDig = true)
    (hn : ∀ c ∈ rest, c ≠ '\n') :
    parseBase g (g ++ (" - S".data ++ (year ++ ('E' :: (ds ++ (" - ".data ++ rest)))))) =
      some (year, rest) := by
  unfold parseBase
  rw [isPrefixOf_append_self]
  simp only [if_true, List.drop_left]
  rw [isPrefixOf_append_self]
  simp only [if_true]
  rw [List.drop_left' (by rfl : (" - S".data).length = 4),
    List.take_left' hy, hy, hyd]
  rw [List.drop_left' hy]
  simp only []
  rw [List.takeWhile_append_of_pos (by
    intro a ha; exact (List.all_eq_true.mp hdd) a ha)]
  have hsp : (" - ".data ++ rest).takeWhile isDig = [] := by
    have : (" - ".data ++ rest) = ' ' :: ("- ".data ++ rest) := rfl
    rw [this, List.takeWhile_cons]
    simp [isDig]
  rw [hsp, List.append_nil]
  have hne : ds.isEmpty = false := by
    cases ds with
    | nil => exact absurd rfl hd
    | cons a l => rfl
  rw [hne]
  simp only [Bool.false_eq_true, if_false, List.drop_left]
  rw [isPrefixOf_append_self]
  simp only [if_true]
  rw [List.drop_left' (by rfl : (" - ".data).length = 3)]
  have : rest.takeWhile (fun c => c ≠ '\n') = rest :=
    List.takeWhile_eq_self_iff.mpr (by
      intro x hx; exact decide_eq_true (hn x hx))
  rw [this]
  simp

/-! ### Collision-loop termination -/

theorem mem_length_le_maxLen (q : PyStr) : ∀ l : List PyStr, q ∈ l → q.length ≤ maxLen l := by
  intro l
  induction l with
  | nil => intro h; cases h
  | cons a t ih =>
    intro h
    rcases List.mem_cons.mp h with rfl | ht
    · exact Nat.le_max_left _ _
    · exact Nat.le_trans (ih ht) (Nat.le_max_right _ _)

theorem natStrAux_len : ∀ (k fuel n : Nat), 10 ^ k ≤ n → n < 10 ^ (k + 1) →
    k + 1 ≤ fuel → (natStrAux fuel n).length = k + 1 := by
  intro k
  induction k with
  | zero =>
    intro fuel n h1 h2 hf
    norm_num at h2
    cases fuel with
    | zero => omega
    | succ f =>
      unfold natStrAux
      rw [if_pos h2]
      rfl
  | succ k ih =>
    intro fuel n h1 h2 hf
    cases fuel with
    | zero => omega
    | succ f =>
      have h10 : ¬ n < 10 := by
        have : 10 ^ 1 ≤ 10 ^ (k + 1) := Nat.pow_le_pow_right (by norm_num) (by omega)
        norm_num at this
        omega
      unfold natStrAux
      rw [if_neg h10, List.length_append]
      have hdiv1 : 10 ^ k ≤ n / 10 := by
        rw [Nat.le_div_iff_mul_le (by norm_num)]
        calc 10 ^ k * 10 = 10 ^ (k + 1) := (pow_succ 10 k).symm
        _ ≤ n := h1
      have hdiv2 : n / 10 < 10 ^ (k + 1) := by
        rw [Nat.div_lt_iff_lt_mul (by norm_num)]
        calc n < 10 ^ (k + 1 + 1) := h2
        _ = 10 ^ (k + 1) * 10 := pow_succ 10 (k + 1)
      rw [ih f (n / 10) hdiv1 hdiv2 (by omega)]
      simp

theorem natStr_length_pow (L : Nat) : (natStr (10 ^ L)).length = L + 1 := by
  have hLlt : L < 10 ^ L := Nat.lt_pow_self (by norm_num) L
  exact natStrAux_len L (10 ^ L + 1) (10 ^ L) (Nat.le_refl _)
    (Nat.pow_lt_pow_right (by norm_num) (by omega)) (by omega)

theorem pjoin_length (a b : PyStr) : (pjoin a b).length = a.length + 1 + b.length := by
  simp [pjoin]
  omega

theorem collides_at_pow_false (fs : FS) (root dest_dir base_key newBase : PyStr)
    (items : List PyStr) :
    collides fs root dest_dir base_key items
      (candName newBase (10 ^ maxLen fs.paths)) = false := by
  set L := maxLen fs.paths with hL
  have hlen : ∀ suffix : PyStr,
      L < (pjoin dest_dir (candName newBase (10 ^ L) ++ suffix)).length := by
    intro suffix
    rw [pjoin_length, List.length_append]
    rcases Nat.eq_zero_or_pos L with h0 | hpos
    · omega
    · have hk : ¬ 10 ^ L ≤ 1 := by
        have : 10 ^ 1 ≤ 10 ^ L := Nat.pow_le_pow_right (by norm_num) hpos
        omega
      have hcand : L + 1 ≤ (candName newBase (10 ^ L)).length := by
        unfold candName
        rw [if_neg hk]
        rw [List.length_append, List.length_append, List.length_append, natStr_length_pow]
        simp
        omega
      omega
  unfold collides
  rw [List.any_eq_false]
  intro item _
  have hnotmem : ¬ (pjoin dest_dir (candName newBase (10 ^ L) ++ item.drop base_key.length))
      ∈ fs.paths := by
    intro hmem
    have := mem_length_le_maxLen _ fs.paths hmem
    have := hlen (item.drop base_key.length)
    omega
  simp only [Bool.and_eq_true, decide_eq_true_eq, Bool.not_eq_true]
  rintro ⟨-, h2, -⟩
  exact hnotmem h2

theorem resolveLoop_finds (fs : FS) (root dest_dir base_key newBase : PyStr)
    (items : List PyStr) :
    ∀ (fuel k k₀ : Nat), k ≤ k₀ → k₀ < k + fuel →
    collides fs root dest_dir base_key items (candName newBase k₀) = false →
    (∀ j, k ≤ j → j < k₀ →
      collides fs root dest_dir base_key items (candName newBase j) = true) →
    resolveLoop fs root dest_dir base_key items newBase fuel k = some k₀ := by
  intro fuel
  induction fuel with
  | zero => intro k k₀ h1 h2 _ _; omega
  | succ fuel ih =>
    intro k k₀ h1 h2 hcol hmin
    rcases Nat.eq_or_lt_of_le h1 with rfl | hlt
    · unfold resolveLoop
      rw [hcol]
      simp
    · unfold resolveLoop
      rw [hmin k (Nat.le_refl k) hlt]
      simp only [if_true]
      exact ih (k + 1) k₀ hlt (by omega) hcol
        (fun j hj1 hj2 => hmin j (by omega) hj2)

/-! ### Actions of the move loop -/

theorem update_nfo_acts (fs : FS) (p t y : PyStr) (d : Bool) :
    ∀ a ∈ (update_nfo fs p t y d).2,
      (∃ q, a = .readFile q) ∨ (∃ q, a = .wroteFile q) ∨ (∃ q, a = .nfoError q) := by
  intro a ha
  unfold update_nfo at ha
  repeat' split at ha
  all_goals try simp only [List.mem_append, List.mem_cons, List.mem_singleton,
    List.not_mem_nil, or_false, false_or] at ha
  all_goals repeat' split at ha
  all_goals try simp only [List.mem_append, List.mem_cons, List.mem_singleton,
    List.not_mem_nil, or_false, false_or] at ha
  all_goals tauto

theorem moveStep_acts (dry : Bool) (env : Env) (root dest bk final year : PyStr)
    (items : List PyStr) (it : PyStr) (hit : it ∈ items) (s : FS × List Action)
    (hacc : ∀ a ∈ s.2, MoveActWF dry root dest bk final year items a) :
    ∀ a ∈ (moveStep dry env root dest bk final year s it).2,
      MoveActWF dry root dest bk final year items a := by
  intro a ha
  unfold moveStep at ha
  dsimp only at ha
  cases dry with
  | true =>
    rw [if_pos rfl] at ha
    split at ha
    · rcases List.mem_append.mp ha with h | h
      · exact hacc a h
      · simp only [List.mem_cons, List.not_mem_nil, or_false] at h
        rcases h with rfl | rfl
        · exact ⟨rfl, it, hit, rfl, rfl⟩
        · exact ⟨rfl, rfl, rfl, it, hit, rfl⟩
    · rcases List.mem_append.mp ha with h | h
      · exact hacc a h
      · simp only [List.mem_singleton] at h
        subst h
        exact ⟨rfl, it, hit, rfl, rfl⟩
  | false =>
    rw [if_neg (by simp)] at ha
    split at ha
    · rcases List.mem_append.mp ha with h | h
      · exact hacc a h
      · simp only [List.mem_singleton] at h
        subst h
        exact hit
    · split at ha
      · rcases List.mem_append.mp ha with h | h
        · rcases List.mem_append.mp h with h' | h'
          · exact hacc a h'
          · simp only [List.mem_cons, List.not_mem_nil, or_false] at h'
            rcases h' with rfl | rfl
            · exact ⟨it, hit, rfl, rfl⟩
            · exact ⟨rfl, rfl, rfl, it, hit, rfl⟩
        · rcases update_nfo_acts _ _ _ _ _ a h with ⟨q, rfl⟩ | ⟨q, rfl⟩ | ⟨q, rfl⟩
          · exact trivial
          · exact trivial
          · exact trivial
      · rcases List.mem_append.mp ha with h | h
        · exact hacc a h
        · simp only [List.mem_singleton] at h
          subst h
          exact ⟨it, hit, rfl, rfl⟩

theorem processMoves_acts (dry : Bool) (env : Env) (root dest bk final year : PyStr)
    (items : List PyStr) :
    ∀ (L : List PyStr), (∀ x ∈ L, x ∈ items) →
    ∀ (fs : FS) (acc : List Action),
      (∀ a ∈ acc, MoveActWF dry root dest bk final year items a) →
    ∀ a ∈ (L.foldl (moveStep dry env root dest bk final year) (fs, acc)).2,
      MoveActWF dry root dest bk final year items a := by
  intro L
  induction L with
  | nil => intro _ fs acc hacc a ha; exact hacc a ha
  | cons it rest ih =>
    intro hsub fs acc hacc a ha
    simp only [List.foldl_cons] at ha
    have hstep := moveStep_acts dry env root dest bk final year items it
      (hsub it (List.mem_cons_self _ _)) (fs, acc) hacc
    have : moveStep dry env root dest bk final year (fs, acc) it =
        ((moveStep dry env root dest bk final year (fs, acc) it).1,
         (moveStep dry env root dest bk final year (fs, acc) it).2) := rfl
    rw [this] at ha
    exact ih (fun x hx => hsub x (List.mem_cons_of_mem _ hx))
      (moveStep dry env root dest bk final year (fs, acc) it).1
      (moveStep dry env root dest bk final year (fs, acc) it).2 hstep a ha

/-! ### Actions of one parsed group -/

theorem processGroup_acts (ts g : PyStr) (dry : Bool) (env : Env) (root : PyStr)
    (fs : FS) (bk : PyStr) (items : List PyStr) (year cap2 : PyStr)
    (hparse : parseBase g bk = some (year, cap2)) :
    ∃ k₀, ∀ a ∈ actionsOf (processGroup ts g dry env root fs bk items),
      a = Action.mkdir (destDirOf ts year cap2) ∨
      MoveActWF dry root (destDirOf ts year cap2) bk
        (candName (pystrip cap2 ++ (" (".data) ++ year ++ (")".data)) k₀) year items a := by
  unfold processGroup
  rw [hparse]
  dsimp only
  split
  · refine ⟨1, ?_⟩
    intro a ha
    unfold actionsOf at ha
    dsimp only at ha
    cases ha
  · rename_i fs1 acts1 heq
    split at heq
    · injection heq with h
      injection h with h1 h2
      subst h1
      subst h2
      refine ⟨resolveCounter fs root (destDirOf ts year cap2) bk items
        (pystrip cap2 ++ (" (".data) ++ year ++ (")".data)), ?_⟩
      intro a ha
      unfold actionsOf at ha
      dsimp only at ha
      rw [List.nil_append] at ha
      right
      unfold processMoves at ha
      exact processMoves_acts dry env root (destDirOf ts year cap2) bk _ year items items
        (fun x hx => hx) fs [] (by intro b hb; cases hb) a ha
    · split at heq
      · injection heq with h
        injection h with h1 h2
        subst h1
        subst h2
        refine ⟨resolveCounter fs root (destDirOf ts year cap2) bk items
          (pystrip cap2 ++ (" (".data) ++ year ++ (")".data)), ?_⟩
        intro a ha
        unfold actionsOf at ha
        dsimp only at ha
        rw [List.nil_append] at ha
        right
        unfold processMoves at ha
        exact processMoves_acts dry env root (destDirOf ts year cap2) bk _ year items items
          (fun x hx => hx) fs [] (by intro b hb; cases hb) a ha
      · split at heq
        · cases heq
        · injection heq with h
          injection h with h1 h2
          subst h1
          subst h2
          refine ⟨resolveCounter { fs with paths := destDirOf ts year cap2 :: fs.paths }
            root (destDirOf ts year cap2) bk items
            (pystrip cap2 ++ (" (".data) ++ year ++ (")".data)), ?_⟩
          intro a ha
          unfold actionsOf at ha
          dsimp only at ha
          rcases List.mem_append.mp ha with h | h
          · simp only [List.mem_singleton] at h
            exact Or.inl h
          · right
            unfold processMoves at h
            exact processMoves_acts dry env root (destDirOf ts year cap2) bk _ year items items
              (fun x hx => hx) _ [] (by intro b hb; cases hb) a h

/-! ### The two `re.sub` passes: matcher specifications -/

theorem ciEq_length (a b : PyStr) (h : ciEq a b = true) : a.length = b.length := by
  unfold ciEq at h
  rw [beq_iff_eq] at h
  have := congrArg List.length h
  simpa using this

theorem startsWithCI_le (p l : PyStr) (h : startsWithCI p l = true) :
    p.length ≤ l.length := by
  unfold startsWithCI at h
  have := ciEq_length _ _ h
  rw [List.length_take] at this
  omega

theorem isPrefixOf_take (p l : PyStr) (h : p.isPrefixOf l = true) :
    l.take p.length = p := by
  obtain ⟨tl, htl⟩ := (isPrefixOf_ex p l).mp h
  rw [← htl]
  exact List.take_left p tl

theorem findClose_spec (close : PyStr) :
    ∀ (l : PyStr) (j : Nat), findClose close l = some j →
      close.length + j ≤ l.length ∧
      ciEq ((l.drop j).take close.length) close = true ∧
      (l.take j).all (fun c => c ≠ '\n') = true := by
  intro l
  induction l with
  | nil =>
    intro j h
    unfold findClose at h
    split at h
    · rename_i hsw
      injection h with h0
      subst h0
      have hle := startsWithCI_le close [] hsw
      simp only [List.length_nil, Nat.le_zero] at hle
      refine ⟨by simp [hle], ?_, by simp⟩
      unfold startsWithCI at hsw
      simpa using hsw
    · cases h
  | cons c rest ih =>
    intro j h
    unfold findClose at h
    split at h
    · rename_i hsw
      injection h with h0
      subst h0
      refine ⟨by simpa using startsWithCI_le close _ hsw, ?_, by simp⟩
      simp only [List.drop_zero]
      unfold startsWithCI at hsw
      exact hsw
    · split at h
      · cases h
      · rename_i hnl
        rw [Option.map_eq_some'] at h
        obtain ⟨j', hj', hj⟩ := h
        subst hj
        obtain ⟨h1, h2, h3⟩ := ih j' hj'
        refine ⟨by simp; omega, ?_, ?_⟩
        · rw [List.drop_succ_cons]
          exact h2
        · rw [List.take_succ_cons, List.all_cons, h3, Bool.and_true]
          simpa using hnl

theorem titleMatcher_spec (items : List TItem) (l : PyStr) (n : Nat) (r : PyStr)
    (h : titleMatcher items l = some (n, r)) :
    0 < n ∧ n ≤ l.length ∧
    ∃ opn inner cls, l.take n = opn ++ inner ++ cls ∧
      ciEq opn ("<title>".data) = true ∧ ciEq cls ("</title>".data) = true ∧
      inner.all (fun c => c ≠ '\n') = true ∧
      r = expandItems [opn ++ inner ++ cls, opn, inner, cls] items := by
  unfold titleMatcher at h
  split at h
  · rename_i hsw
    rw [Option.map_eq_some'] at h
    obtain ⟨j, hj, hpair⟩ := h
    injection hpair with hn hr
    subst hn
    subst hr
    obtain ⟨h1, h2, h3⟩ := findClose_spec ("</title>".data) (l.drop 7) j hj
    have h7 : 7 ≤ l.length := by
      have := startsWithCI_le ("<title>".data) l hsw
      simpa using this
    have hlen8 : ("</title>".data).length = 8 := rfl
    rw [hlen8] at h1
    rw [List.length_drop] at h1
    have hdec : l.take (7 + j + 8) =
        l.take 7 ++ (l.drop 7).take j ++ (l.drop (7 + j)).take 8 := by
      have hsplit1 : l.take (7 + (j + 8)) = l.take 7 ++ (l.drop 7).take (j + 8) :=
        List.take_add l 7 (j + 8)
      have hsplit2 : (l.drop 7).take (j + 8) =
          (l.drop 7).take j ++ ((l.drop 7).drop j).take 8 :=
        List.take_add (l.drop 7) j 8
      have hdd : (l.drop 7).drop j = l.drop (7 + j) := List.drop_drop j 7 l
      have harith : 7 + j + 8 = 7 + (j + 8) := by omega
      rw [harith, hsplit1, hsplit2, hdd, List.append_assoc]
    refine ⟨by omega, by omega, l.take 7, (l.drop 7).take j, (l.drop (7 + j)).take 8,
      hdec, ?_, ?_, h3, ?_⟩
    · have : ("<title>".data).length = 7 := rfl
      unfold startsWithCI at hsw
      rw [this] at hsw
      exact hsw
    · rw [← List.drop_drop]
      exact h2
    · rw [hdec]
  · cases h

/-- the tail of the year pattern consumes `m ≥ 1` characters ending either in
a `</year>` close tag (then `m ≥ 7`) or in `/>` (then `m ≥ 2`). -/
theorem yearCont_spec (r : PyStr) (m : Nat) (h : yearCont r = some m) :
    0 < m ∧ m ≤ r.length ∧
    ((7 ≤ m ∧ ciEq ((r.take m).drop (m - 7)) ("</year>".data) = true) ∨
      (2 ≤ m ∧ (r.take m).drop (m - 2) = "/>".data)) := by
  unfold yearCont at h
  split at h
  · rename_i r2
    split at h
    · rename_i j hj
      injection h with hm
      subst hm
      obtain ⟨h1, h2, _⟩ := findClose_spec ("</year>".data) r2 j hj
      have hlen7 : ("</year>".data).length = 7 := rfl
      rw [hlen7] at h1
      refine ⟨by omega, by simp; omega, Or.inl ⟨by omega, ?_⟩⟩
      have e1 : (('>' :: r2).take (1 + j + 7)).drop (1 + j + 7 - 7) =
          (r2.take (j + 7)).drop j := by
        have : 1 + j + 7 = (j + 7) + 1 := by omega
        rw [this, List.take_succ_cons]
        have : j + 7 + 1 - 7 = j + 1 := by omega
        rw [this, List.drop_succ_cons]
      rw [e1, List.drop_take]
      have he : j + 7 - j = 7 := by omega
      rw [he]
      have h2' := h2
      rw [hlen7] at h2'
      exact h2'
    · cases h
  · dsimp only at h
    split at h
    · rename_i hpre
      injection h with hm
      subst hm
      set w := (r.takeWhile (fun c => c.isWhitespace)).length with hw
      have hwle : w ≤ r.length := by
        rw [hw]
        exact (List.takeWhile_sublist _).length_le
      have hdlen : 2 ≤ (r.drop w).length := by
        have := isPrefixOf_take ("/>".data) (r.drop w) hpre
        have hlen : ((r.drop w).take (("/>".data).length)).length = (("/>".data).length) := by
          rw [this]
        rw [List.length_take] at hlen
        have : (("/>".data)).length = 2 := rfl
        rw [this] at hlen
        omega
      rw [List.length_drop] at hdlen
      refine ⟨by omega, by omega, Or.inr ⟨by omega, ?_⟩⟩
      have e1 : (r.take (w + 2)).drop (w + 2 - 2) = (r.drop w).take 2 := by
        have : w + 2 - 2 = w := by omega
        rw [this, List.drop_take]
        congr 1
        omega
      rw [e1]
      have := isPrefixOf_take ("/>".data) (r.drop w) hpre
      simpa using this
    · cases h

theorem yearTryAttrs_spec (rem : PyStr) :
    ∀ (A m : Nat), yearTryAttrs rem A = some m →
      ∃ a clen, a ≤ A ∧ yearCont (rem.drop a) = some clen ∧ m = a + clen := by
  intro A
  induction A with
  | zero =>
    intro m h
    unfold yearTryAttrs at h
    exact ⟨0, m, Nat.le_refl 0, by simpa using h, by omega⟩
  | succ A ih =>
    intro m h
    unfold yearTryAttrs at h
    split at h
    · rename_i clen hclen
      injection h with hm
      exact ⟨A + 1, clen, Nat.le_refl _, hclen, hm.symm⟩
    · obtain ⟨a, clen, ha, hc, hm⟩ := ih m h
      exact ⟨a, clen, by omega, hc, hm⟩

theorem yearMatcher_spec (items : List TItem) (l : PyStr) (n : Nat) (r : PyStr)
    (h : yearMatcher items l = some (n, r)) :
    0 < n ∧ n ≤ l.length ∧ r = expandItems [l.take n] items ∧
    ciEq ((l.take n).take 5) ("<year".data) = true ∧
    (ciEq ((l.take n).drop ((l.take n).length - 7)) ("</year>".data) = true ∨
      (l.take n).drop ((l.take n).length - 2) = "/>".data) := by
  unfold yearMatcher at h
  split at h
  · rename_i hsw
    rw [Option.map_eq_some'] at h
    obtain ⟨m, hm, hpair⟩ := h
    injection hpair with hn hr
    subst hn
    obtain ⟨a, clen, haA, hcont, hmac⟩ := yearTryAttrs_spec (l.drop 5) _ m hm
    subst hmac
    have h5 : 5 ≤ l.length := by
      have := startsWithCI_le ("<year".data) l hsw
      simpa using this
    have hA : a ≤ (l.drop 5).length := by
      refine Nat.le_trans haA ?_
      split
      · rename_i c rest hrem
        split
        · rw [hrem]
          exact (List.takeWhile_sublist _).length_le
        · omega
      · omega
    rw [List.length_drop] at hA
    have hdd : (l.drop 5).drop a = l.drop (5 + a) := List.drop_drop a 5 l
    rw [hdd] at hcont
    obtain ⟨hc1, hc2, hc3⟩ := yearCont_spec (l.drop (5 + a)) clen hcont
    rw [List.length_drop] at hc2
    have hn : 5 + (a + clen) ≤ l.length := by omega
    have hlen : (l.take (5 + (a + clen))).length = 5 + (a + clen) := by
      rw [List.length_take]
      omega
    refine ⟨by omega, hn, hr.symm, ?_, ?_⟩
    · rw [List.take_take]
      have hmin : min 5 (5 + (a + clen)) = 5 := by omega
      rw [hmin]
      have : ("<year".data).length = 5 := rfl
      unfold startsWithCI at hsw
      rw [this] at hsw
      exact hsw
    · have key : ∀ d : Nat, d ≤ clen →
          (l.take (5 + (a + clen))).drop (5 + (a + clen) - d) =
          ((l.drop (5 + a)).take clen).drop (clen - d) := by
        intro d hd
        have e1 : 5 + (a + clen) - d = (5 + a) + (clen - d) := by omega
        rw [e1, ← List.drop_drop, List.drop_take]
        have : 5 + (a + clen) - (5 + a) = clen := by omega
        rw [this]
      rcases hc3 with ⟨h7, hci⟩ | ⟨h2, hpr⟩
      · left
        rw [hlen, key 7 h7]
        exact hci
      · right
        rw [hlen, key 2 h2]
        exact hpr
  · cases h

/-! ### The scanner: frame and shape lemmas -/

theorem renderOrig_cons_raw (c : Char) (segs : List Seg) :
    renderOrig (Seg.raw c :: segs) = c :: renderOrig segs := rfl

theorem renderOrig_cons_rep (o r : PyStr) (segs : List Seg) :
    renderOrig (Seg.rep o r :: segs) = o ++ renderOrig segs := rfl

theorem renderNew_cons_raw (c : Char) (segs : List Seg) :
    renderNew (Seg.raw c :: segs) = c :: renderNew segs := rfl

theorem renderNew_cons_rep (o r : PyStr) (segs : List Seg) :
    renderNew (Seg.rep o r :: segs) = r ++ renderNew segs := rfl

/-- FRAME: re-rendering the scan's segments with their original text gives
back the input — the scanner decomposes the input without loss. -/
theorem scanAux_orig (m : PyStr → Option (Nat × PyStr)) :
    ∀ (fuel : Nat) (l : PyStr), l.length ≤ fuel →
      renderOrig (scanAux m fuel l) = l := by
  intro fuel
  induction fuel with
  | zero =>
    intro l hl
    have h0 : l = [] := List.eq_nil_of_length_eq_zero (by omega)
    subst h0
    rfl
  | succ fuel ih =>
    intro l hl
    cases l with
    | nil => rfl
    | cons c rest =>
      simp only [List.length_cons] at hl
      unfold scanAux
      split
      · rename_i n r heq
        split
        · rw [renderOrig_cons_raw, ih rest (by omega)]
        · rename_i hn0
          rw [renderOrig_cons_rep]
          rw [ih ((c :: rest).drop n) (by
            rw [List.length_drop]
            simp only [List.length_cons]
            omega)]
          exact List.take_append_drop n (c :: rest)
      · rw [renderOrig_cons_raw, ih rest (by omega)]

/-- every segment is either a verbatim character or the replacement of an
actual (nonempty) matcher hit on some suffix of the input. -/
theorem scanAux_shape (m : PyStr → Option (Nat × PyStr)) :
    ∀ (fuel : Nat) (l : PyStr) (s : Seg), s ∈ scanAux m fuel l →
      s.isRaw = true ∨
      ∃ l' n r, m l' = some (n, r) ∧ n ≠ 0 ∧ s = Seg.rep (l'.take n) r := by
  intro fuel
  induction fuel with
  | zero =>
    intro l s hs
    cases l with
    | nil =>
      unfold scanAux at hs
      cases hs
    | cons c rest =>
      unfold scanAux at hs
      cases hs
  | succ fuel ih =>
    intro l s hs
    cases l with
    | nil =>
      unfold scanAux at hs
      cases hs
    | cons c rest =>
      unfold scanAux at hs
      split at hs
      · rename_i n r heq
        split at hs
        · rcases List.mem_cons.mp hs with rfl | htl
          · exact Or.inl rfl
          · exact ih rest s htl
        · rename_i hn0
          rcases List.mem_cons.mp hs with rfl | htl
          · exact Or.inr ⟨c :: rest, n, r, heq, hn0, rfl⟩
          · exact ih ((c :: rest).drop n) s htl
      · rcases List.mem_cons.mp hs with rfl | htl
        · exact Or.inl rfl
        · exact ih rest s htl

theorem allRaw_renderNew : ∀ segs : List Seg, (∀ s ∈ segs, s.isRaw = true) →
    renderNew segs = renderOrig segs := by
  intro segs
  induction segs with
  | nil => intro _; rfl
  | cons s rest ih =>
    intro h
    cases s with
    | raw c =>
      rw [renderNew_cons_raw, renderOrig_cons_raw,
        ih (fun x hx => h x (List.mem_cons_of_mem _ hx))]
    | rep o r =>
      have := h _ (List.mem_cons_self _ _)
      simp [Seg.isRaw] at this

/-! ### Totality when `os.makedirs` never fails -/

theorem processGroup_ok (ts g : PyStr) (dry : Bool) (env : Env) (root : PyStr)
    (fs : FS) (bk : PyStr) (items : List PyStr)
    (h : ∀ p, env.mkdirFails p = false) :
    ∃ out, processGroup ts g dry env root fs bk items = .ok out := by
  unfold processGroup
  split
  · exact ⟨_, rfl⟩
  · dsimp only
    split
    · rename_i e heq
      exfalso
      split at heq
      · cases heq
      · split at heq
        · cases heq
        · split at heq
          · rename_i hcond
            rw [h] at hcond
            simp at hcond
          · cases heq
    · exact ⟨_, rfl⟩

theorem foldGroups_ok (ts g : PyStr) (dry : Bool) (env : Env) (root : PyStr)
    (h : ∀ p, env.mkdirFails p = false) :
    ∀ (gs : List (PyStr × List PyStr)) (s : FS × List Action),
      ∃ out, gs.foldlM
        (fun s q => (processGroup ts g dry env root s.1 q.1 q.2).map
          (fun r => (r.1, s.2 ++ r.2))) s = .ok out := by
  intro gs
  induction gs with
  | nil => intro s; exact ⟨s, rfl⟩
  | cons q rest ih =>
    intro s
    rw [List.foldlM_cons]
    obtain ⟨out1, hout1⟩ := processGroup_ok ts g dry env root s.1 q.1 q.2 h
    rw [hout1]
    exact ih (out1.1, s.2 ++ out1.2)

theorem processDir_ok (ts g : PyStr) (dry : Bool) (env : Env) (fs : FS)
    (d : DirEntry) (h : ∀ p, env.mkdirFails p = false) :
    ∃ out, processDir ts g dry env fs d = .ok out := by
  unfold processDir
  exact foldGroups_ok ts g dry env d.root h _ (fs, [])

theorem migrate_media_ok (ts g : PyStr) (dry : Bool) (env : Env)
    (h : ∀ p, env.mkdirFails p = false) :
    ∀ (walk : List DirEntry) (s : FS × List Action),
      ∃ out, walk.foldlM
        (fun s d => (processDir ts g dry env s.1 d).map
          (fun r => (r.1, s.2 ++ r.2))) s = .ok out := by
  intro walk
  induction walk with
  | nil => intro s; exact ⟨s, rfl⟩
  | cons d rest ih =>
    intro s
    rw [List.foldlM_cons]
    obtain ⟨out1, hout1⟩ := processDir_ok ts g dry env s.1 d h
    rw [hout1]
    exact ih (out1.1, s.2 ++ out1.2)

/-! ### Dry-run frame lemmas -/

theorem moveStep_dry (env : Env) (root dest bk final year : PyStr)
    (s : FS × List Action) (it : PyStr) :
    (moveStep true env root dest bk final year s it).1 = s.1 ∧
    ∀ a ∈ (moveStep true env root dest bk final year s it).2,
      a ∈ s.2 ∨ DryActWF a := by
  unfold moveStep
  dsimp only
  rw [if_pos rfl]
  split
  · refine ⟨rfl, ?_⟩
    intro a ha
    rcases List.mem_append.mp ha with h | h
    · exact Or.inl h
    · simp only [List.mem_cons, List.not_mem_nil, or_false] at h
      rcases h with rfl | rfl
      · exact Or.inr trivial
      · exact Or.inr rfl
  · refine ⟨rfl, ?_⟩
    intro a ha
    rcases List.mem_append.mp ha with h | h
    · exact Or.inl h
    · simp only [List.mem_singleton] at h
      subst h
      exact Or.inr trivial

theorem processMoves_dry (env : Env) (root dest bk final year : PyStr) :
    ∀ (L : List PyStr) (fs : FS) (acc : List Action),
      ((L.foldl (moveStep true env root dest bk final year) (fs, acc)).1 = fs) ∧
      (∀ a ∈ (L.foldl (moveStep true env root dest bk final year) (fs, acc)).2,
        a ∈ acc ∨ DryActWF a) := by
  intro L
  induction L with
  | nil => intro fs acc; exact ⟨rfl, fun _ ha => Or.inl ha⟩
  | cons it rest ih =>
    intro fs acc
    simp only [List.foldl_cons]
    obtain ⟨h1, h2⟩ := moveStep_dry env root dest bk final year (fs, acc) it
    have hpair : moveStep true env root dest bk final year (fs, acc) it =
        ((moveStep true env root dest bk final year (fs, acc) it).1,
         (moveStep true env root dest bk final year (fs, acc) it).2) := rfl
    rw [hpair, h1]
    obtain ⟨ih1, ih2⟩ :=
      ih fs ((moveStep true env root dest bk final year (fs, acc) it).2)
    refine ⟨ih1, fun a ha => ?_⟩
    rcases ih2 a ha with hmem | hdry
    · exact h2 a hmem
    · exact Or.inr hdry

theorem processGroup_dry (ts g : PyStr) (env : Env) (root : PyStr) (fs : FS)
    (bk : PyStr) (items : List PyStr) :
    ∃ acts, processGroup ts g true env root fs bk items = .ok (fs, acts) ∧
      ∀ a ∈ acts, DryActWF a := by
  unfold processGroup
  split
  · refine ⟨[.skipped bk], rfl, ?_⟩
    intro a ha
    simp only [List.mem_singleton] at ha
    subst ha
    exact trivial
  · dsimp only
    rename_i year cap2 heq
    have hmoves := processMoves_dry env root
      (pjoin (pjoin (pjoin ROOT_DIR year) ts)
        (pystrip cap2 ++ (" (".data) ++ year ++ (")".data))) bk
      (candName (pystrip cap2 ++ (" (".data) ++ year ++ (")".data))
        (resolveCounter fs root (pjoin (pjoin (pjoin ROOT_DIR year) ts)
          (pystrip cap2 ++ (" (".data) ++ year ++ (")".data))) bk items
          (pystrip cap2 ++ (" (".data) ++ year ++ (")".data)))) year items fs []
    split
    · rename_i e heq2
      exfalso
      split at heq2
      · cases heq2
      · rw [if_pos rfl] at heq2
        cases heq2
    · rename_i fs1 acts1 heq2
      split at heq2
      · injection heq2 with hp
        injection hp with hp1 hp2
        subst hp1
        subst hp2
        unfold processMoves
        rw [hmoves.1]
        refine ⟨_, rfl, ?_⟩
        intro a ha
        rw [List.nil_append] at ha
        rcases hmoves.2 a ha with hmem | hdry
        · cases hmem
        · exact hdry
      · rw [if_pos rfl] at heq2
        injection heq2 with hp
        injection hp with hp1 hp2
        subst hp1
        subst hp2
        unfold processMoves
        rw [hmoves.1]
        refine ⟨_, rfl, ?_⟩
        intro a ha
        rw [List.nil_append] at ha
        rcases hmoves.2 a ha with hmem | hdry
        · cases hmem
        · exact hdry

theorem foldGroups_dry (ts g : PyStr) (env : Env) (root : PyStr) :
    ∀ (gs : List (PyStr × List PyStr)) (fs : FS) (acc : List Action),
      (∀ a ∈ acc, DryActWF a) →
      ∃ acts, gs.foldlM
        (fun s q => (processGroup ts g true env root s.1 q.1 q.2).map
          (fun r => (r.1, s.2 ++ r.2))) (fs, acc) = .ok (fs, acts) ∧
        ∀ a ∈ acts, DryActWF a := by
  intro gs
  induction gs with
  | nil => intro fs acc hacc; exact ⟨acc, rfl, hacc⟩
  | cons q rest ih =>
    intro fs acc hacc
    rw [List.foldlM_cons]
    obtain ⟨acts1, hok, hdry1⟩ := processGroup_dry ts g env root fs q.1 q.2
    rw [hok]
    have hacc' : ∀ a ∈ acc ++ acts1, DryActWF a := by
      intro a ha
      rcases List.mem_append.mp ha with h | h
      · exact hacc a h
      · exact hdry1 a h
    exact ih fs (acc ++ acts1) hacc'

theorem processDir_dry (ts g : PyStr) (env : Env) (fs : FS) (d : DirEntry) :
    ∃ acts, processDir ts g true env fs d = .ok (fs, acts) ∧
      ∀ a ∈ acts, DryActWF a := by
  unfold processDir
  exact foldGroups_dry ts g env d.root _ fs [] (fun _ ha => absurd ha (List.not_mem_nil _))

/-! ### Claim theorems -/

/-- **C1** (counterexample): in the conflict scenario the counter resolves
to 2 and the file is moved to `…/Clip (2021)/Clip (2021) (2).mp4` — the
parent directory does NOT embed the candidate name: the claimed directory
`…/Clip (2021) (2)/` is not a path-prefix of the move target. -/
theorem C1_destdir_claim_false :
    (Action.moved (pjoin exSrcDir exMp4) (pjoin exDest ("Clip (2021) (2).mp4".data)) ∈
      actionsOf (processGroup ("Videos".data) ("Home".data) false envOk exSrcDir
        exFSConflict exKey [exMp4, exNfo])) ∧
    ((pjoin (pjoin (pjoin ROOT_DIR ("2021".data)) ("Videos".data))
        ("Clip (2021) (2)".data) ++ ['/']).isPrefixOf
      (pjoin exDest ("Clip (2021) (2).mp4".data)) = false) := by
  constructor
  · decide
  · decide

/-- **C1** (amended): `dest_dir` is computed once, from the UNSUFFIXED name
(line 116), and never recomputed during collision resolution: every final
move target (and every dry-run target) of a parsed group lies directly in
`<root>/<year>/<target_subdir>/<title> (<year>)`; only the file name carries
the collision counter. -/
theorem C1_destdir_amended (ts g : PyStr) (dry : Bool) (env : Env) (root : PyStr)
    (fs : FS) (bk : PyStr) (items : List PyStr) (year cap2 : PyStr)
    (hparse : parseBase g bk = some (year, cap2)) :
    ∃ k₀, ∀ a ∈ actionsOf (processGroup ts g dry env root fs bk items),
      ∀ s t : PyStr, (a = .moved s t ∨ a = .wouldMove s t) →
        ∃ item ∈ items,
          t = pjoin (destDirOf ts year cap2)
            (candName (pystrip cap2 ++ (" (".data) ++ year ++ (")".data)) k₀ ++
              item.drop bk.length) := by
  obtain ⟨k₀, hk⟩ := processGroup_acts ts g dry env root fs bk items year cap2 hparse
  refine ⟨k₀, ?_⟩
  intro a ha s t hst
  rcases hk a ha with hmk | hwf
  · rcases hst with rfl | rfl <;> cases hmk
  · rcases hst with rfl | rfl
    · simp only [MoveActWF] at hwf
      obtain ⟨item, hi, _, ht⟩ := hwf
      exact ⟨item, hi, ht⟩
    · simp only [MoveActWF] at hwf
      obtain ⟨_, item, hi, _, ht⟩ := hwf
      exact ⟨item, hi, ht⟩

/-- **C1** (witness for the amended theorem): the conflict scenario. -/
theorem C1_destdir_amended_witness :
    parseBase ("Home".data) exKey = some ("2021".data, "Clip".data) ∧
    (∃ k₀, ∀ a ∈ actionsOf (processGroup ("Videos".data) ("Home".data) false envOk
        exSrcDir exFSConflict exKey [exMp4, exNfo]),
      ∀ s t : PyStr, (a = .moved s t ∨ a = .wouldMove s t) →
        ∃ item ∈ [exMp4, exNfo],
          t = pjoin (destDirOf ("Videos".data) ("2021".data) ("Clip".data))
            (candName (pystrip ("Clip".data) ++ (" (".data) ++ ("2021".data) ++ (")".data)) k₀ ++
              item.drop exKey.length)) :=
  ⟨by decide, C1_destdir_amended ("Videos".data) ("Home".data) false envOk exSrcDir
      exFSConflict exKey [exMp4, exNfo] ("2021".data) ("Clip".data) (by decide)⟩

/-- **C2** (counterexample): on the plain scenario the metadata patcher is
invoked with `newTitle = "Clip (2021)"` (the resolved destination name,
`item.final_name` at line 186) and never with the parsed title `"Clip"`,
refuting the claim that `newTitle` equals the parsed title. -/
theorem C2_nfo_args_claim_false :
    parseBase ("Home".data) exKey = some ("2021".data, "Clip".data) ∧
    (Action.nfoCall (pjoin exDest ("Clip (2021).nfo".data)) ("Clip (2021)".data)
        ("2021".data) false ∈
      actionsOf (processGroup ("Videos".data) ("Home".data) false envOk exSrcDir
        exFSPlain exKey [exMp4, exNfo])) ∧
    (Action.nfoCall (pjoin exDest ("Clip (2021).nfo".data)) (pystrip ("Clip".data))
        ("2021".data) false ∉
      actionsOf (processGroup ("Videos".data) ("Home".data) false envOk exSrcDir
        exFSPlain exKey [exMp4, exNfo])) ∧
    ¬ ("Clip (2021)".data = pystrip ("Clip".data)) := by
  refine ⟨by decide, by decide, by decide, by decide⟩

/-- **C2** (amended): every metadata-patcher invocation of a parsed group
carries `newTitle = item.final_name` — the RESOLVED candidate name
`"<title> (<year>)[ (<n>)]"`, not the bare parsed title — and
`newYear = year` (the parsed year), in the run's dry-run mode. -/
theorem C2_nfo_args_amended (ts g : PyStr) (dry : Bool) (env : Env) (root : PyStr)
    (fs : FS) (bk : PyStr) (items : List PyStr) (year cap2 : PyStr)
    (hparse : parseBase g bk = some (year, cap2)) :
    ∃ k₀, ∀ a ∈ actionsOf (processGroup ts g dry env root fs bk items),
      ∀ p ttl yr dr, a = .nfoCall p ttl yr dr →
        ttl = candName (pystrip cap2 ++ (" (".data) ++ year ++ (")".data)) k₀ ∧
        yr = year ∧ dr = dry := by
  obtain ⟨k₀, hk⟩ := processGroup_acts ts g dry env root fs bk items year cap2 hparse
  refine ⟨k₀, ?_⟩
  intro a ha p ttl yr dr heq
  subst heq
  rcases hk _ ha with hmk | hwf
  · cases hmk
  · simp only [MoveActWF] at hwf
    obtain ⟨h1, h2, h3, _⟩ := hwf
    exact ⟨h1, h2, h3⟩

/-- **C2** (witness for the amended theorem): the plain scenario. -/
theorem C2_nfo_args_amended_witness :
    parseBase ("Home".data) exKey = some ("2021".data, "Clip".data) ∧
    (∃ k₀, ∀ a ∈ actionsOf (processGroup ("Videos".data) ("Home".data) false envOk
        exSrcDir exFSPlain exKey [exMp4, exNfo]),
      ∀ p ttl yr dr, a = .nfoCall p ttl yr dr →
        ttl = candName (pystrip ("Clip".data) ++ (" (".data) ++ ("2021".data) ++ (")".data)) k₀ ∧
        yr = ("2021".data) ∧ dr = false) :=
  ⟨by decide, C2_nfo_args_amended ("Videos".data) ("Home".data) false envOk exSrcDir
      exFSPlain exKey [exMp4, exNfo] ("2021".data) ("Clip".data) (by decide)⟩

/-- **C6**: every member of a built group satisfies
`raw_name = BaseKey ++ MoveSuffix` (with `MoveSuffix = raw_name[len(BaseKey):]`),
and every move (or dry-run move) of the group's processing sends a member to
exactly `resolvedCandidate ++ MoveSuffix` inside the destination directory,
with the same suffix expression recombining to the original name. -/
theorem C6_suffix_preserved (g : PyStr) (entries : List PyStr) (bk : PyStr)
    (members : List PyStr) (ts : PyStr) (dry : Bool) (env : Env) (root : PyStr)
    (fs : FS) (year cap2 : PyStr)
    (hg : (bk, members) ∈ buildGroups g entries)
    (hparse : parseBase g bk = some (year, cap2)) :
    (∀ m ∈ members, bk ++ m.drop bk.length = m) ∧
    ∃ k₀, ∀ a ∈ actionsOf (processGroup ts g dry env root fs bk members),
      ∀ s t : PyStr, (a = .moved s t ∨ a = .wouldMove s t) →
        ∃ m ∈ members, s = pjoin root m ∧
          t = pjoin (destDirOf ts year cap2)
            (candName (pystrip cap2 ++ (" (".data) ++ year ++ (")".data)) k₀ ++
              m.drop bk.length) ∧
          bk ++ m.drop bk.length = m := by
  have hpre : ∀ m ∈ members, bk ++ m.drop bk.length = m := by
    intro m hm
    obtain ⟨_, hkey⟩ := buildGroups_wf g entries (bk, members) hg m hm
    have h0 := deriveBaseKey_append_drop m
    rw [hkey] at h0
    exact h0
  refine ⟨hpre, ?_⟩
  obtain ⟨k₀, hk⟩ := processGroup_acts ts g dry env root fs bk members year cap2 hparse
  refine ⟨k₀, ?_⟩
  intro a ha s t hst
  rcases hk a ha with hmk | hwf
  · rcases hst with rfl | rfl <;> cases hmk
  · rcases hst with rfl | rfl
    · simp only [MoveActWF] at hwf
      obtain ⟨m, hm, hs, ht⟩ := hwf
      exact ⟨m, hm, hs, ht, hpre m hm⟩
    · simp only [MoveActWF] at hwf
      obtain ⟨_, m, hm, hs, ht⟩ := hwf
      exact ⟨m, hm, hs, ht, hpre m hm⟩

/-- **C6** (witness): the conflict scenario group. -/
theorem C6_suffix_preserved_witness :
    ((exKey, [exMp4, exNfo]) ∈ buildGroups ("Home".data) [exMp4, exNfo]) ∧
    parseBase ("Home".data) exKey = some ("2021".data, "Clip".data) ∧
    ((∀ m ∈ [exMp4, exNfo], exKey ++ m.drop exKey.length = m) ∧
    ∃ k₀, ∀ a ∈ actionsOf (processGroup ("Videos".data) ("Home".data) false envOk
        exSrcDir exFSConflict exKey [exMp4, exNfo]),
      ∀ s t : PyStr, (a = .moved s t ∨ a = .wouldMove s t) →
        ∃ m ∈ [exMp4, exNfo], s = pjoin exSrcDir m ∧
          t = pjoin (destDirOf ("Videos".data) ("2021".data) ("Clip".data))
            (candName (pystrip ("Clip".data) ++ (" (".data) ++ ("2021".data) ++ (")".data)) k₀ ++
              m.drop exKey.length) ∧
          exKey ++ m.drop exKey.length = m) :=
  ⟨by decide, by decide,
    C6_suffix_preserved ("Home".data) [exMp4, exNfo] exKey [exMp4, exNfo]
      ("Videos".data) false envOk exSrcDir exFSConflict ("2021".data) ("Clip".data)
      (by decide) (by decide)⟩

/-- **C3** (counterexample): the claim says the base key is matched
case-insensitively (so a lowercase `s` parses) and that an empty title
remainder fails to parse.  On the code both are false: `re.match` is used
with no flags, so `Home - s2021E01 - Clip` does NOT parse, and the pattern
ends in `(.*)`, so `Home - S2021E01 - ` DOES parse, with an empty capture 2. -/
theorem C3_parse_claim_false :
    parseBase ("Home".data) ("Home - s2021E01 - Clip".data) = none ∧
    parseBase ("Home".data) ("Home - S2021E01 - ".data) = some ("2021".data, []) := by
  constructor
  · decide
  · decide

/-- **C3** (amended): the base key is matched against
`^<prefix> - S(\d{4})E\d+ - (.*)` case-SENSITIVELY and anchored at the start;
an empty remainder parses (title may be empty).  On success year is capture 1
and capture 2 is the remainder (up to a newline); on failure the group is
skipped: no move, no filesystem change, only a skip notice. -/
theorem C3_parse_amended :
    (∀ g year ds rest : PyStr, year.length = 4 → year.all isDig = true →
      ds ≠ [] → ds.all isDig = true → (∀ c ∈ rest, c ≠ '\n') →
      parseBase g (g ++ (" - S".data ++ (year ++ ('E' :: (ds ++ (" - ".data ++ rest)))))) =
        some (year, rest)) ∧
    (∀ (ts g : PyStr) (dry : Bool) (env : Env) (root : PyStr) (fs : FS)
      (base : PyStr) (items : List PyStr), parseBase g base = none →
      processGroup ts g dry env root fs base items = .ok (fs, [.skipped base])) := by
  constructor
  · exact parseBase_success
  · intro ts g dry env root fs base items hnone
    unfold processGroup
    rw [hnone]

/-- **C3** (witness for the amended theorem): both conjuncts at concrete
inputs: `Home - S2021E01 - Clip` parses to `("2021", "Clip")`, and the
unparsable base key `Home - Clip` makes the group be skipped untouched. -/
theorem C3_parse_amended_witness :
    parseBase ("Home".data)
        ("Home".data ++ (" - S".data ++ ("2021".data ++ ('E' :: ("01".data ++ (" - ".data ++ "Clip".data)))))) =
      some ("2021".data, "Clip".data) ∧
    processGroup ("Videos".data) ("Home".data) false envOk exSrcDir exFSPlain
        ("Home - Clip".data) [("Home - Clip.mp4".data)] =
      .ok (exFSPlain, [.skipped ("Home - Clip".data)]) :=
  ⟨C3_parse_amended.1 ("Home".data) ("2021".data) ("01".data) ("Clip".data)
      (by decide) (by decide) (by decide) (by decide) (by decide),
    C3_parse_amended.2 ("Videos".data) ("Home".data) false envOk exSrcDir exFSPlain
      ("Home - Clip".data) [("Home - Clip.mp4".data)] (by decide)⟩

/-! #### Replacement-template lemmas -/

theorem expandItems_nil (gs : List PyStr) : expandItems gs [] = [] := rfl

theorem expandItems_cons_lit (gs : List PyStr) (c : Char) (items : List TItem) :
    expandItems gs (TItem.lit c :: items) = c :: expandItems gs items := rfl

theorem expandItems_cons_group (gs : List PyStr) (i : Nat) (items : List TItem) :
    expandItems gs (TItem.group i :: items) = gs.getD i [] ++ expandItems gs items := rfl

theorem expandItems_lits_append (gs : List PyStr) (s : PyStr) (items : List TItem) :
    expandItems gs (s.map TItem.lit ++ items) = s ++ expandItems gs items := by
  induction s with
  | nil => rfl
  | cons c s ih =>
    rw [List.map_cons, List.cons_append, expandItems_cons_lit, ih, List.cons_append]

theorem expandItems_lits (gs : List PyStr) (s : PyStr) :
    expandItems gs (s.map TItem.lit) = s := by
  have h := expandItems_lits_append gs s []
  rw [List.append_nil] at h
  rw [h, expandItems_nil, List.append_nil]

/-- one step of template parsing on a non-backslash character. -/
theorem parseTemplateAux_cons_nb (n fuel : Nat) (c : Char) (rest : PyStr)
    (hc : ¬ c = '\\') :
    parseTemplateAux n (fuel + 1) (c :: rest) =
      (parseTemplateAux n fuel rest).map (fun items => TItem.lit c :: items) := by
  rw [parseTemplateAux.eq_def]
  dsimp only
  rw [if_neg hc]

/-- one step of template parsing on `\e` for a digit `e` naming a valid
group, followed by a non-digit. -/
theorem parseTemplateAux_bs_digit (n fuel : Nat) (e d : Char) (rest : PyStr)
    (heg : ¬ e = 'g') (he0 : ¬ e = '0') (he : isDig e = true)
    (hd : isDig d = false) (hle : e.toNat - 48 ≤ n) :
    parseTemplateAux n (fuel + 1) ('\\' :: e :: d :: rest) =
      (parseTemplateAux n fuel (d :: rest)).map
        (fun items => TItem.group (e.toNat - 48) :: items) := by
  rw [parseTemplateAux.eq_def]
  dsimp only
  rw [if_pos rfl, if_neg heg, if_neg he0, if_pos he, if_neg (by simp [hd]), if_pos hle]

/-- a backslash-free stretch of a template parses as pure literals. -/
theorem parseAux_lits (n : Nat) :
    ∀ (s : PyStr) (fuel : Nat) (rest : PyStr), '\\' ∉ s →
      parseTemplateAux n (s.length + fuel) (s ++ rest) =
        (parseTemplateAux n fuel rest).map (fun items => s.map TItem.lit ++ items) := by
  intro s
  induction s with
  | nil =>
    intro fuel rest _
    simp only [List.length_nil, Nat.zero_add, List.nil_append, List.map_nil]
    cases parseTemplateAux n fuel rest <;> simp
  | cons c s ih =>
    intro fuel rest hns
    have hc : ¬ c = '\\' := fun hc => hns (hc ▸ List.mem_cons_self c s)
    have hs : '\\' ∉ s := fun hm => hns (List.mem_cons_of_mem c hm)
    have harith : (c :: s).length + fuel = (s.length + fuel) + 1 := by
      simp only [List.length_cons]
      omega
    rw [harith]
    show parseTemplateAux n (s.length + fuel + 1) (c :: (s ++ rest)) = _
    rw [parseTemplateAux_cons_nb n (s.length + fuel) c (s ++ rest) hc,
      ih fuel rest hs]
    cases parseTemplateAux n fuel rest <;> simp

/-- a fully backslash-free template is all literals and always parses. -/
theorem parse_noBackslash (n : Nat) (s : PyStr) (h : '\\' ∉ s) :
    parseTemplate n s = some (s.map TItem.lit) := by
  unfold parseTemplate
  have h1 := parseAux_lits n s 1 [] h
  rw [List.append_nil] at h1
  rw [h1]
  simp [parseTemplateAux]

/-- the title template `\1{new_title}\3` (line 34) parses as
`group 1, the literals of new_title, group 3` whenever `new_title` has no
backslash and does not start with a decimal digit (a leading digit would be
absorbed into the `\1` group reference). -/
theorem parseTemplate_title (t : PyStr) (ht : '\\' ∉ t)
    (hth : ∀ d, t.head? = some d → isDig d = false) :
    parseTemplate 3 (titleTemplate t) =
      some (TItem.group 1 :: (t.map TItem.lit ++ [TItem.group 3])) := by
  cases t with
  | nil => decide
  | cons d t' =>
    have hd : isDig d = false := hth d rfl
    have hlen : (titleTemplate (d :: t')).length = t'.length + 5 := by
      unfold titleTemplate
      simp
    unfold parseTemplate
    rw [hlen]
    have hshape : titleTemplate (d :: t') = '\\' :: '1' :: d :: (t' ++ "\\3".data) := rfl
    rw [hshape]
    rw [parseTemplateAux_bs_digit 3 (t'.length + 5) '1' d (t' ++ "\\3".data)
      (by decide) (by decide) (by decide) hd (by decide)]
    have hfuel : t'.length + 5 = (d :: t').length + 4 := by
      simp only [List.length_cons]
    rw [hfuel]
    have hrw : (d :: (t' ++ "\\3".data)) = (d :: t') ++ "\\3".data := rfl
    rw [hrw, parseAux_lits 3 (d :: t') 4 ("\\3".data) ht]
    have hp3 : parseTemplateAux 3 4 ("\\3".data) = some [TItem.group 3] := by decide
    rw [hp3]
    have hone : '1'.toNat - 48 = 1 := by decide
    rw [hone]
    rfl

/-- the year template `<year>{new_year}</year>` (line 43) is all literals
whenever `new_year` has no backslash. -/
theorem parseTemplate_year (y : PyStr) (hy : '\\' ∉ y) :
    parseTemplate 0 (yearTemplate y) = some ((yearTemplate y).map TItem.lit) := by
  apply parse_noBackslash
  intro hmem
  unfold yearTemplate at hmem
  rcases List.mem_append.mp hmem with h | h
  · rcases List.mem_append.mp h with h2 | h2
    · exact absurd h2 (by decide)
    · exact hy h2
  · exact absurd h (by decide)

/-- **C8** (counterexample): the claim quantifies over EVERY `(newTitle,
newYear)` pair, but the replacements are Python template strings, so
`re.sub` processes backslash escapes inside the spliced arguments: with
`newTitle = "x\2y"` the group reference `\2` re-inserts the OLD inner text
(`<title>OLD</title>` becomes `<title>xOLDy</title>`, not verbatim
`newTitle`); with `newTitle = "A\D"` the bad escape raises `re.error`,
caught at line 52, so the matching title element is not rewritten at all
and no write occurs; and with `newTitle = "2x"` the leading digit is
absorbed into the template's `\1`, giving the invalid group reference 12,
again aborting the patch. -/
theorem C8_nfo_patch_claim_false :
    (updateNfoResult ("x\\2y".data) ("2021".data) ("<title>OLD</title>".data)).1 =
      "<title>xOLDy</title>".data ∧
    ¬ (updateNfoResult ("x\\2y".data) ("2021".data) ("<title>OLD</title>".data)).1 =
      "<title>x\\2y</title>".data ∧
    updateNfoResult ("A\\D".data) ("2021".data) ("<title>OLD</title>".data) =
      ("<title>OLD</title>".data, 0) ∧
    updateNfoResult ("2x".data) ("2021".data) ("<title>OLD</title>".data) =
      ("<title>OLD</title>".data, 0) := by
  refine ⟨by decide, by decide, by decide, by decide⟩

theorem expandItems_title (t o opn inner cls : PyStr) :
    expandItems [o, opn, inner, cls]
      (TItem.group 1 :: (t.map TItem.lit ++ [TItem.group 3])) =
    opn ++ t ++ cls := by
  rw [expandItems_cons_group, expandItems_lits_append, expandItems_cons_group,
    expandItems_nil]
  simp [List.getD_cons_succ, List.getD_cons_zero, List.append_assoc]

/-- **C8** (amended): for `newTitle`/`newYear` that contain no backslash,
`newTitle` moreover not starting with a decimal digit, both replacement
templates parse (no `re.error`), and the patch is then a pure
span-replacement: the title pass decomposes the content into segments whose
original texts concatenate back to the input (every byte outside a matched
span is copied verbatim), every replaced span is a case-insensitively
matched `<title>…</title>` element whose tags are kept and whose
newline-free inner text alone becomes `newTitle`; the year pass, run on the
title pass's output, likewise only replaces spans that start with `<year`
and end with `</year>` or `/>`, each by exactly `<year>newYear</year>`; and
when neither pattern matches anywhere, the content is returned unchanged
and no write is performed.  (Outside the restriction, template-escape
processing applies, as the counterexample shows.) -/
theorem C8_nfo_patch_frame (t y c : PyStr) (ht : '\\' ∉ t)
    (hth : ∀ d, t.head? = some d → isDig d = false) (hy : '\\' ∉ y) :
    ∃ itT itY,
      parseTemplate 3 (titleTemplate t) = some itT ∧
      parseTemplate 0 (yearTemplate y) = some itY ∧
      renderOrig (scan (titleMatcher itT) c) = c ∧
      (∀ s ∈ scan (titleMatcher itT) c, SegWFTitle t s) ∧
      subTitle itT c = renderNew (scan (titleMatcher itT) c) ∧
      renderOrig (scan (yearMatcher itY) (subTitle itT c)) = subTitle itT c ∧
      (∀ s ∈ scan (yearMatcher itY) (subTitle itT c), SegWFYear y s) ∧
      ((∀ s ∈ scan (titleMatcher itT) c, s.isRaw = true) →
        (∀ s ∈ scan (yearMatcher itY) c, s.isRaw = true) →
        updateNfoResult t y c = (c, 0)) := by
  refine ⟨TItem.group 1 :: (t.map TItem.lit ++ [TItem.group 3]),
    (yearTemplate y).map TItem.lit,
    parseTemplate_title t ht hth, parseTemplate_year y hy, ?_, ?_, rfl, ?_, ?_, ?_⟩
  case _ => exact scanAux_orig _ c.length c (Nat.le_refl _)
  · intro s hs
    rcases scanAux_shape _ _ _ _ hs with hraw | ⟨l', n, r, hm, hn0, rfl⟩
    · cases s with
      | raw _ => trivial
      | rep _ _ => simp [Seg.isRaw] at hraw
    · obtain ⟨_, _, opn, inner, cls, hdec, ho, hc, hnl, hr⟩ :=
        titleMatcher_spec _ l' n r hm
      refine ⟨opn, inner, cls, hdec, ho, hc, hnl, ?_⟩
      rw [hr]
      exact expandItems_title t _ opn inner cls
  · exact scanAux_orig _ _ _ (Nat.le_refl _)
  · intro s hs
    rcases scanAux_shape _ _ _ _ hs with hraw | ⟨l', n, r, hm, hn0, rfl⟩
    · cases s with
      | raw _ => trivial
      | rep _ _ => simp [Seg.isRaw] at hraw
    · obtain ⟨_, _, hr, h5, hend⟩ := yearMatcher_spec _ l' n r hm
      refine ⟨?_, h5, hend⟩
      rw [hr, expandItems_lits]
      rfl
  · intro h1 h2
    have hT : subTitle (TItem.group 1 :: (t.map TItem.lit ++ [TItem.group 3])) c = c := by
      unfold subTitle
      rw [allRaw_renderNew _ h1]
      exact scanAux_orig _ c.length c (Nat.le_refl _)
    have hY : subYear ((yearTemplate y).map TItem.lit) c = c := by
      unfold subYear
      rw [allRaw_renderNew _ h2]
      exact scanAux_orig _ c.length c (Nat.le_refl _)
    unfold updateNfoResult
    rw [parseTemplate_title t ht hth]
    dsimp only
    rw [parseTemplate_year y hy]
    dsimp only
    rw [hT, hY]
    simp

theorem C8_nfo_patch_frame_witness :
    ('\\' ∉ "T".data) ∧
    (∀ d, ("T".data).head? = some d → isDig d = false) ∧
    ('\\' ∉ "2021".data) ∧
    (∃ itT itY,
      parseTemplate 3 (titleTemplate ("T".data)) = some itT ∧
      parseTemplate 0 (yearTemplate ("2021".data)) = some itY ∧
      renderOrig (scan (titleMatcher itT) ("<title>a</title><year/>".data)) =
        "<title>a</title><year/>".data ∧
      (∀ s ∈ scan (titleMatcher itT) ("<title>a</title><year/>".data),
        SegWFTitle ("T".data) s) ∧
      subTitle itT ("<title>a</title><year/>".data) =
        renderNew (scan (titleMatcher itT) ("<title>a</title><year/>".data)) ∧
      renderOrig (scan (yearMatcher itY)
          (subTitle itT ("<title>a</title><year/>".data))) =
        subTitle itT ("<title>a</title><year/>".data) ∧
      (∀ s ∈ scan (yearMatcher itY) (subTitle itT ("<title>a</title><year/>".data)),
        SegWFYear ("2021".data) s) ∧
      ((∀ s ∈ scan (titleMatcher itT) ("<title>a</title><year/>".data),
          s.isRaw = true) →
        (∀ s ∈ scan (yearMatcher itY) ("<title>a</title><year/>".data),
          s.isRaw = true) →
        updateNfoResult ("T".data) ("2021".data) ("<title>a</title><year/>".data) =
          ("<title>a</title><year/>".data, 0))) := by
  have hth : ∀ d, ("T".data).head? = some d → isDig d = false := by
    intro d hd
    injection hd with h
    rw [← h]
    decide
  exact ⟨by decide, hth, by decide,
    C8_nfo_patch_frame ("T".data) ("2021".data) ("<title>a</title><year/>".data)
      (by decide) hth (by decide)⟩

/-- **C9** (counterexample): the claim's derivation ("otherwise strip the
text after the last `.`") disagrees with the code on `..mp4`: CPython's
`splitext` strips nothing when every character before the last dot is a dot,
so the code keeps `..mp4` while the claim's procedure yields `.`. -/
theorem C9_basekey_claim_false :
    baseKeySpecC9 ("..mp4".data) false = ".".data ∧
    deriveBaseKey ("..mp4".data) = "..mp4".data ∧
    ¬ baseKeySpecC9 ("..mp4".data) false = deriveBaseKey ("..mp4".data) := by
  refine ⟨by decide, by decide, by decide⟩

/-- **C9** (amended): the `.trickplay` strip applies to ANY entry bearing the
marker (the code never consults directory-ness), deciding before generic
extension stripping; otherwise the extension is stripped as `splitext` does
(a name whose only pre-dot characters are dots is kept whole); then the
poster marker is stripped. -/
theorem C9_basekey_amended (name : PyStr) :
    deriveBaseKey name = baseKeySpecC9Amended name := by
  unfold deriveBaseKey baseKeySpecC9Amended splitextRoot
  rcases Bool.eq_false_or_eq_true ((".trickplay".data).isSuffixOf name) with ht | ht
  · rw [ht]
    simp only [if_true]
  · rw [ht]
    simp only [Bool.false_eq_true, if_false]
    cases hr : rfindDot name with
    | none => rfl
    | some i =>
      rcases Bool.eq_false_or_eq_true ((name.take i).any fun c => decide (c ≠ '.')) with ha | ha
      · have hall : ((name.take i).all fun c => decide (c = '.')) = false := by
          rw [List.any_eq_true] at ha
          obtain ⟨x, hx, hxd⟩ := ha
          rcases Bool.eq_false_or_eq_true ((name.take i).all fun c => decide (c = '.')) with h | h
          · exfalso
            rw [List.all_eq_true] at h
            have hx' := h x hx
            simp only [decide_eq_true_eq] at hx' hxd
            exact hxd hx'
          · exact h
        simp only [ha, hall]
        simp
      · have hall : ((name.take i).all fun c => decide (c = '.')) = true := by
          rw [List.all_eq_true]
          intro x hx
          by_contra hne
          have hany : ((name.take i).any fun c => decide (c ≠ '.')) = true := by
            rw [List.any_eq_true]
            refine ⟨x, hx, ?_⟩
            simp only [decide_eq_true_eq] at hne ⊢
            exact hne
          rw [ha] at hany
          exact absurd hany (by simp)
        simp only [ha, hall]
        simp

/-- **C4** (counterexample): two groups A and B in one directory, and an
environment in which creating A's destination directory raises.  The whole
run aborts with the error (nothing is logged or moved), whereas the very
same input under a working `makedirs` moves group B — so the failure is NOT
caught, the group is not skipped, and the remaining groups are lost. -/
theorem C4_mkdir_abort_claim_false :
    isError (migrate_media ("Videos".data) ("Home".data) false envMkdirFailsA
      exFSTwo exWalkTwo) = true ∧
    actionsOf (migrate_media ("Videos".data) ("Home".data) false envMkdirFailsA
      exFSTwo exWalkTwo) = [] ∧
    (Action.moved (pjoin exSrcDir exB)
        (pjoin ("/Volumes/media/home_videos/home/2021/Videos/B (2021)".data)
          ("B (2021).mp4".data)) ∈
      actionsOf (migrate_media ("Videos".data) ("Home".data) false envOk
        exFSTwo exWalkTwo)) := by
  refine ⟨by decide, by decide, by decide⟩

/-- **C4** (amended): a destination-directory creation failure is NOT caught:
`os.makedirs` sits outside every `try`, so the exception propagates and
aborts the whole run, losing all remaining groups and directories.  It is
the ONLY way the run aborts: when no `makedirs` call fails, the run always
completes (`.ok`), every per-entry move or metadata failure being contained. -/
theorem C4_mkdir_abort_amended (ts g : PyStr) (dry : Bool) (env : Env) (fs : FS)
    (walk : List DirEntry) (h : ∀ p, env.mkdirFails p = false) :
    ∃ out, migrate_media ts g dry env fs walk = .ok out := by
  unfold migrate_media
  exact migrate_media_ok ts g dry env h walk (fs, [])

/-- **C4** (witness for the amended theorem). -/
theorem C4_mkdir_abort_amended_witness :
    (∀ p, envOk.mkdirFails p = false) ∧
    ∃ out, migrate_media ("Videos".data) ("Home".data) false envOk exFSTwo
      exWalkTwo = .ok out :=
  ⟨fun _ => rfl,
    C4_mkdir_abort_amended ("Videos".data) ("Home".data) false envOk exFSTwo
      exWalkTwo (fun _ => rfl)⟩

/-- **C7**: a dry run mutates nothing: the resulting filesystem is exactly
the input one (no directory created, no file moved, no metadata file read or
written), while grouping, parsing, collision probing and logging still run —
the log contains only skip notices, would-move notices and simulate-only
patcher calls. -/
theorem C7_dry_run_no_mutation (ts g : PyStr) (env : Env) (fs : FS)
    (walk : List DirEntry) :
    ∃ acts, migrate_media ts g true env fs walk = .ok (fs, acts) ∧
      ∀ a ∈ acts, DryActWF a := by
  unfold migrate_media
  have main : ∀ (w : List DirEntry) (acc : List Action), (∀ a ∈ acc, DryActWF a) →
      ∃ acts, w.foldlM
        (fun s d => (processDir ts g true env s.1 d).map
          (fun r => (r.1, s.2 ++ r.2))) (fs, acc) = .ok (fs, acts) ∧
        ∀ a ∈ acts, DryActWF a := by
    intro w
    induction w with
    | nil => intro acc hacc; exact ⟨acc, rfl, hacc⟩
    | cons d rest ih =>
      intro acc hacc
      rw [List.foldlM_cons]
      obtain ⟨acts1, hok, hdry1⟩ := processDir_dry ts g env fs d
      rw [hok]
      have hacc' : ∀ a ∈ acc ++ acts1, DryActWF a := by
        intro a ha
        rcases List.mem_append.mp ha with hm | hm
        · exact hacc a hm
        · exact hdry1 a hm
      exact ih (acc ++ acts1) hacc'
  exact main walk [] (fun _ ha => absurd ha (List.not_mem_nil _))

/-- **C7** (witness): the conflict scenario under dry run. -/
theorem C7_dry_run_no_mutation_witness :
    ∃ acts, migrate_media ("Videos".data) ("Home".data) true envOk exFSConflict
      exWalk = .ok (exFSConflict, acts) ∧ ∀ a ∈ acts, DryActWF a :=
  C7_dry_run_no_mutation ("Videos".data) ("Home".data) envOk exFSConflict exWalk

/-- **C5**: for every group and (finite) filesystem the collision loop
terminates within the provably sufficient fuel, settling on the LOWEST
counter `k₀ ≥ 1` whose candidate name collides for no member (a collision
being a pre-existing path that is not the member's own source path), and
the subsequent move loop gives every member that one candidate name. -/
theorem C5_collision_loop (fs : FS) (root dest_dir base_key newBase : PyStr)
    (items : List PyStr) :
    ∃ k₀, 1 ≤ k₀ ∧
      resolveLoop fs root dest_dir base_key items newBase (fuelBound fs) 1 = some k₀ ∧
      resolveCounter fs root dest_dir base_key items newBase = k₀ ∧
      collides fs root dest_dir base_key items (candName newBase k₀) = false ∧
      (∀ j, 1 ≤ j → j < k₀ →
        collides fs root dest_dir base_key items (candName newBase j) = true) ∧
      (∀ (dry : Bool) (env : Env) (year : PyStr) (fs' : FS),
        ∀ a ∈ (processMoves dry env root dest_dir base_key
            (candName newBase k₀) year fs' items).2,
          MoveActWF dry root dest_dir base_key (candName newBase k₀) year items a) := by
  have h1L : 1 ≤ 10 ^ maxLen fs.paths :=
    Nat.pos_pow_of_pos (maxLen fs.paths) (by norm_num)
  have hbig := collides_at_pow_false fs root dest_dir base_key newBase items
  have hPex : ∃ n, collides fs root dest_dir base_key items
      (candName newBase (n + 1)) = false :=
    ⟨10 ^ maxLen fs.paths - 1, by rw [Nat.sub_add_cancel h1L]; exact hbig⟩
  have hmin : ∀ j, 1 ≤ j → j < Nat.find hPex + 1 →
      collides fs root dest_dir base_key items (candName newBase j) = true := by
    intro j hj1 hj2
    have hm := Nat.find_min hPex (m := j - 1) (by omega)
    rw [Nat.sub_add_cancel hj1] at hm
    rcases Bool.eq_false_or_eq_true
      (collides fs root dest_dir base_key items (candName newBase j)) with h | h
    · exact h
    · exact absurd h hm
  have hfind : Nat.find hPex ≤ 10 ^ maxLen fs.paths - 1 :=
    Nat.find_min' hPex (by rw [Nat.sub_add_cancel h1L]; exact hbig)
  have hloop : resolveLoop fs root dest_dir base_key items newBase
      (fuelBound fs) 1 = some (Nat.find hPex + 1) := by
    apply resolveLoop_finds fs root dest_dir base_key newBase items
      (fuelBound fs) 1 (Nat.find hPex + 1) (by omega)
    · unfold fuelBound
      omega
    · exact Nat.find_spec hPex
    · exact hmin
  refine ⟨Nat.find hPex + 1, by omega, hloop, ?_, Nat.find_spec hPex, hmin, ?_⟩
  · unfold resolveCounter
    rw [hloop]
    rfl
  · intro dry env year fs' a ha
    unfold processMoves at ha
    exact processMoves_acts dry env root dest_dir base_key
      (candName newBase (Nat.find hPex + 1)) year items items (fun x hx => hx)
      fs' [] (by intro b hb; cases hb) a ha

/-- **C5** (witness): the conflict scenario, where the loop settles on
counter 2. -/
theorem C5_collision_loop_witness :
    ∃ k₀, 1 ≤ k₀ ∧
      resolveLoop exFSConflict exSrcDir exDest exKey [exMp4, exNfo] ("Clip (2021)".data)
        (fuelBound exFSConflict) 1 = some k₀ ∧
      resolveCounter exFSConflict exSrcDir exDest exKey [exMp4, exNfo]
        ("Clip (2021)".data) = k₀ ∧
      collides exFSConflict exSrcDir exDest exKey [exMp4, exNfo]
        (candName ("Clip (2021)".data) k₀) = false ∧
      (∀ j, 1 ≤ j → j < k₀ →
        collides exFSConflict exSrcDir exDest exKey [exMp4, exNfo]
          (candName ("Clip (2021)".data) j) = true) ∧
      (∀ (dry : Bool) (env : Env) (year : PyStr) (fs' : FS),
        ∀ a ∈ (processMoves dry env exSrcDir exDest exKey
            (candName ("Clip (2021)".data) k₀) year fs' [exMp4, exNfo]).2,
          MoveActWF dry exSrcDir exDest exKey (candName ("Clip (2021)".data) k₀)
            year [exMp4, exNfo] a) :=
  C5_collision_loop exFSConflict exSrcDir exDest exKey ("Clip (2021)".data) [exMp4, exNfo]

/-- **C10**: every entry placed in a group has the group's base key as a
literal string prefix of its raw name (the key is obtained by removing a
suffix), so the suffix slice `item[len(base_key):]` recombines to the name
and the `startswith` guard of the collision loop accepts every member. -/
theorem C10_group_key_literal_prefix (g : PyStr) (entries : List PyStr)
    (key : PyStr) (members : List PyStr) (item : PyStr)
    (hg : (key, members) ∈ buildGroups g entries) (hm : item ∈ members) :
    (key ++ item.drop key.length = item) ∧ key.isPrefixOf item = true := by
  obtain ⟨_, hkey⟩ := buildGroups_wf g entries (key, members) hg item hm
  have hx : key ++ item.drop key.length = item := by
    have h0 := deriveBaseKey_append_drop item
    rw [hkey] at h0
    exact h0
  exact ⟨hx, (isPrefixOf_ex key item).mpr ⟨_, hx⟩⟩

/-- **C10** (witness): concrete group built from two sibling files. -/
theorem C10_group_key_literal_prefix_witness :
    (exKey ++ exNfo.drop exKey.length = exNfo) ∧ exKey.isPrefixOf exNfo = true :=
  C10_group_key_literal_prefix ("Home".data) [exMp4, exNfo] exKey [exMp4, exNfo] exNfo
    (by decide) (by decide)

end Jellyfin
